import Mathlib

/-!
Verification of the rich-text editor's selection-scoped formatter
(`toolbar.service.ts` and `text-editor.component.ts`).

The development shallowly embeds the DOM-rewriting core of `setFontSize`
(the "font name marker" strategy) over an explicit forest model of the
editable surface, and embeds the smaller stateful pieces (selection
save/restore, format-state refresh, the `isUpdating` guard, command
dispatch, font-size stepper input handling, `writeValue`) as explicit
state-passing functions.  All definitions are computable and structurally
recursive so concrete runs evaluate by `decide` / `rfl`.
-/

/-! ### String containment (models the CSS attribute substring selector `[style*=...]`) -/

/-- Character-list prefix test. -/
def leadsWith : List Char → List Char → Bool
  | [], _ => true
  | _ :: _, [] => false
  | a :: as, b :: bs => a == b && leadsWith as bs

/-- Does `s` contain `pat` as a contiguous run? -/
def holdsRun (pat : List Char) : List Char → Bool
  | [] => leadsWith pat []
  | b :: bs => leadsWith pat (b :: bs) || holdsRun pat bs

/-- Substring test on strings: does `s` contain `pat`? -/
def strHas (s pat : String) : Bool := holdsRun pat.toList s.toList

/-! ### Inline style values

A CSS declaration value is either a pixel length written by the rewriter
(`span.style.fontSize = size + "px"`, with the numeric size kept abstract as a
rational) or a raw string coming from pre-existing markup.  A pixel value's
textual rendering `"<number>px"` never contains the reserved marker token. -/

inductive StyleVal where
  | px (q : ℚ)
  | raw (s : String)
deriving DecidableEq, Repr

/-- The reserved marker font name used by both `setFontSize` variants. -/
def markerFont : String := "cdk-marker-font"

/-- Does a style value's text contain the marker token? -/
def valHasMarker : StyleVal → Bool
  | .px _ => false
  | .raw s => strHas s markerFont

/-- First value bound to attribute `k` (models `getAttribute`). -/
def attrGet (attrs : List (String × String)) (k : String) : Option String :=
  (attrs.find? fun p => p.1 == k).map fun p => p.2

/-- Removal of attribute `k` (models `removeAttribute`). -/
def attrRemove (attrs : List (String × String)) (k : String) : List (String × String) :=
  attrs.filter fun p => !(p.1 == k)

/-- First value of style property `k` (models reading `el.style[k]`). -/
def styleGet (st : List (String × StyleVal)) (k : String) : Option StyleVal :=
  (st.find? fun p => p.1 == k).map fun p => p.2

/-- Removal of style property `k` (models `el.style[k] = ''`). -/
def styleRemove (st : List (String × StyleVal)) (k : String) : List (String × StyleVal) :=
  st.filter fun p => !(p.1 == k)

/-- Setting style property `k` (models `el.style[k] = v`). -/
def styleSet (st : List (String × StyleVal)) (k : String) (v : StyleVal) :
    List (String × StyleVal) :=
  styleRemove st k ++ [(k, v)]

/-- JavaScript truthiness of a style read: absent or empty string is falsy. -/
def styleTruthy : Option StyleVal → Bool
  | none => false
  | some (.raw s) => !(s == "")
  | some (.px _) => true

/-- Does the serialized inline style contain the marker token?  (Models the
`span[style*="cdk-marker-font"]` selector; CSS property names never contain
the reserved token, so only declaration values are inspected.) -/
def styleHasMarker (st : List (String × StyleVal)) : Bool :=
  st.any fun p => valHasMarker p.2

/-! ### The DOM forest

A sibling-list ("forest") encoding of the editable surface's subtree: each
element node carries a numeric identity (modelling DOM node identity), its tag
name, attribute list, inline style and children.  The encoding is first-order,
so every function below is structurally recursive and kernel-computable. -/

inductive DForest where
  | nil : DForest
  | textCons (s : String) (rest : DForest) : DForest
  | elemCons (id : Nat) (tag : String) (attrs : List (String × String))
      (style : List (String × StyleVal)) (children : DForest) (rest : DForest) : DForest
deriving DecidableEq, Repr

/-- A flattened view of one element node (identity, tag, attributes, style,
children subtree). -/
structure ENode where
  id : Nat
  tag : String
  attrs : List (String × String)
  style : List (String × StyleVal)
  children : DForest
deriving DecidableEq, Repr

/-- Forest concatenation (sibling splicing). -/
def appF : DForest → DForest → DForest
  | .nil, g => g
  | .textCons s r, g => .textCons s (appF r g)
  | .elemCons i t a st ch r, g => .elemCons i t a st ch (appF r g)

/-- Number of top-level nodes, text nodes included (models `childNodes.length`). -/
def forestLen : DForest → Nat
  | .nil => 0
  | .textCons _ r => forestLen r + 1
  | .elemCons _ _ _ _ _ r => forestLen r + 1

/-- All element nodes of a forest in document (pre-) order. -/
def elemsF : DForest → List ENode
  | .nil => []
  | .textCons _ r => elemsF r
  | .elemCons i t a st ch r => ⟨i, t, a, st, ch⟩ :: (elemsF ch ++ elemsF r)

/-- All element identities in document order. -/
def elemIdsF (f : DForest) : List Nat := (elemsF f).map ENode.id

/-- Identities of the top-level elements only. -/
def topIdsF : DForest → List Nat
  | .nil => []
  | .textCons _ r => topIdsF r
  | .elemCons i _ _ _ _ r => i :: topIdsF r

/-- Does an element carry the marker token, either as its `face` attribute or
inside its inline style?  (The survival predicate of the marker-leak claim.) -/
def carriesMarkerE (e : ENode) : Bool :=
  attrGet e.attrs "face" == some markerFont || styleHasMarker e.style

/-- Matches `font[face="cdk-marker-font"]`. -/
def isFontMarkerE (e : ENode) : Bool :=
  e.tag == "FONT" && attrGet e.attrs "face" == some markerFont

/-- Matches `span[style*="cdk-marker-font"]`. -/
def isSpanMarkerE (e : ENode) : Bool :=
  e.tag == "SPAN" && styleHasMarker e.style

/-- Document-order collection of the identities of all elements matching `p`
(models `querySelectorAll` run on a container, applied to its child forest). -/
def collectF (p : ENode → Bool) : DForest → List Nat
  | .nil => []
  | .textCons _ r => collectF p r
  | .elemCons i t a st ch r =>
      (if p ⟨i, t, a, st, ch⟩ then [i] else []) ++ (collectF p ch ++ collectF p r)

/-! ### The marker rewrite of `setFontSize`

`processF sz i f n` performs the body of the `toReplace.forEach` loop for the
marked element with identity `i` inside the forest `f`, with `n` the next
fresh node identity: it cleans the marked element's descendants, then either
reuses the parent span (the parent-flattening branch) or replaces the marked
element with a freshly created span.  Identities are unique in all trees we
reason about, so locating the element by identity models DOM node identity. -/

/-- Strip `font-size` from every element of the forest and strip `size`/`face`
from every legacy `FONT` element (the descendant cleanup step of the loop). -/
def cleanF : DForest → DForest
  | .nil => .nil
  | .textCons s r => .textCons s (cleanF r)
  | .elemCons i t a st ch r =>
      .elemCons i t (if t == "FONT" then attrRemove (attrRemove a "size") "face" else a)
        (styleRemove st "font-size") (cleanF ch) (cleanF r)

/-- Structural copy with freshly allocated identities, in pre-order starting at
`n` (models `span.innerHTML = el.innerHTML`: serializing and re-parsing the
children creates new nodes).  Returns the copy and the next fresh identity. -/
def freshCopyF : DForest → Nat → DForest × Nat
  | .nil, n => (.nil, n)
  | .textCons s r, n =>
      let rr := freshCopyF r n
      (.textCons s rr.1, rr.2)
  | .elemCons _ t a st ch r, n =>
      let cc := freshCopyF ch (n + 1)
      let rr := freshCopyF r cc.2
      (.elemCons n t a st cc.1 rr.1, rr.2)

/-- Locate the top-level element with identity `i`: returns the siblings before
it, its data, and the siblings after it. -/
def splitF (i : Nat) : DForest → Option (DForest × ENode × DForest)
  | .nil => none
  | .textCons s r =>
      (splitF i r).map fun x => (.textCons s x.1, x.2.1, x.2.2)
  | .elemCons j t a st ch r =>
      if j == i then some (.nil, ⟨j, t, a, st, ch⟩, r)
      else (splitF i r).map fun x => (.elemCons j t a st ch x.1, x.2.1, x.2.2)

/-- One iteration of the `toReplace.forEach` loop, for the marked element with
identity `i`.  Returns the rewritten forest, the next fresh identity, and the
identities pushed onto `newSpans` (`[parent]` on the parent-reuse branch,
`[new span]` on the standard branch, `[]` when `i` is not in the forest).
The `parent &&` guard of the source is implicit: an element found by `splitF`
always sits under an enclosing element (the container at the outermost level).
The scan is uniform over the whole forest; with unique identities exactly one
surgery site exists, which is how the DOM locates `el` by node identity. -/
def processF (sz : ℚ) (i : Nat) : DForest → Nat → DForest × Nat × List Nat
  | .nil, n => (.nil, n, [])
  | .textCons s r, n =>
      let rr := processF sz i r n
      (.textCons s rr.1, rr.2.1, rr.2.2)
  | .elemCons id tag attrs style ch r, n =>
      match splitF i ch with
      | some (pre, el, post) =>
          -- this element is the marked element's parent
          let cleaned := cleanF el.children
          if tag == "SPAN" && styleTruthy (styleGet style "font-size")
              && (forestLen ch == 1) then
            -- parent-reuse: overwrite the parent's font-size, unwrap the marker
            let rr := processF sz i r n
            (.elemCons id tag attrs (styleSet style "font-size" (.px sz))
              (appF pre (appF cleaned post)) rr.1, rr.2.1, [id] ++ rr.2.2)
          else
            -- standard: replace the marker with a new span carrying the size
            let c := freshCopyF cleaned n
            let rr := processF sz i r (c.2 + 1)
            (.elemCons id tag attrs style
              (appF pre (.elemCons c.2 "SPAN" [] [("font-size", .px sz)] c.1 post)) rr.1,
              rr.2.1, [c.2] ++ rr.2.2)
      | none =>
          let rc := processF sz i ch n
          let rr := processF sz i r rc.2.1
          (.elemCons id tag attrs style rc.1 rr.1, rr.2.1, rc.2.2 ++ rr.2.2)

/-- The whole `toReplace.forEach` loop over the collected marker identities.
When an identity is no longer attached (it was already rewritten), the loop
body still pushes a (detached) node onto `newSpans`; that is modelled by a
fresh ghost identity and an unchanged forest. -/
def runMarkersF (sz : ℚ) : List Nat → DForest → Nat → DForest × Nat × List Nat
  | [], f, n => (f, n, [])
  | i :: rest, f, n =>
      let r := processF sz i f n
      let f1 := r.1
      let n1 := if r.2.2.isEmpty then r.2.1 + 1 else r.2.1
      let sp1 := if r.2.2.isEmpty then [r.2.1] else r.2.2
      let rr := runMarkersF sz rest f1 n1
      (rr.1, rr.2.1, sp1 ++ rr.2.2)

/-- The DOM phase of `setFontSize` (both variants run the identical loop): the
container element (the editable surface, or the saved range's container in the
service variant) with identity `cid`, tag `ctag`, attributes `cattrs`, style
`cstyle` and content `content` is queried for both marker forms — `font` tags
first, then `span` tags, exactly as `toReplace` is built — and every match is
rewritten.  Returns the rewritten container (as a one-element forest), the
next fresh identity, and `newSpans`. -/
def setFontSizeSurface (sz : ℚ) (cid : Nat) (ctag : String)
    (cattrs : List (String × String)) (cstyle : List (String × StyleVal))
    (content : DForest) (n : Nat) : DForest × Nat × List Nat :=
  let ids := collectF isFontMarkerE content ++ collectF isSpanMarkerE content
  runMarkersF sz ids (.elemCons cid ctag cattrs cstyle content .nil) n

/-- Selection re-establishment after the loop: if at least one wrapper was
collected, the new range runs from immediately before `newSpans[0]` to
immediately after `newSpans[newSpans.length - 1]`. -/
def rebuildSelection (spans : List Nat) : Option (Nat × Nat) :=
  match spans with
  | [] => none
  | s :: rest => some (s, rest.getLastD s)

/-! ### Selection tracking

The service walks from the range's common ancestor up through its parents:
an element with `contenteditable="true"` accepts, one with
`contenteditable="false"` or with the `floating-toolbar` class rejects, and
running out of parents rejects.  The component instead tests
`editorRef.nativeElement.contains(sel.anchorNode)`. -/

/-- What the ownership walk sees of one node in the parent chain. -/
structure NodeInfo where
  isElement : Bool
  ceAttr : Option String
  classes : List String
deriving DecidableEq, Repr

/-- The service's `isContentEditable` walk over the chain
`node :: node.parentNode :: ...` (innermost first). -/
def isContentEditable : List NodeInfo → Bool
  | [] => false
  | e :: rest =>
      if e.isElement then
        if e.ceAttr == some "true" then true
        else if e.ceAttr == some "false" then false
        else if e.classes.contains "floating-toolbar" then false
        else isContentEditable rest
      else isContentEditable rest

/-- A snapshot of a live selection range: the ancestor chain of its common
ancestor container (used by the service's ownership walk) and an identity
payload distinguishing distinct snapshots. -/
structure LiveRange where
  ancestors : List NodeInfo
  payload : Nat
deriving DecidableEq, Repr

/-- `ToolbarService.saveSelection`: with `live` the current selection's first
range (`none` when `rangeCount = 0`), the saved range is overwritten exactly
when the walk from the range's common ancestor accepts; otherwise it is left
unchanged. -/
def serviceSaveSelection (live : Option LiveRange) (saved : Option LiveRange) :
    Option LiveRange :=
  match live with
  | some r => if isContentEditable r.ancestors then some r else saved
  | none => saved

/-- `ToolbarService.restoreSelection`: re-applies the saved range if one is
set, otherwise leaves the live selection untouched (total function: no
exception path exists). -/
def serviceRestoreSelection (saved : Option LiveRange) (live : Option LiveRange) :
    Option LiveRange :=
  match saved with
  | some r => some r
  | none => live

/-- `TextEditorComponent.saveSelection`: the guard is
`editorRef.nativeElement.contains(sel.anchorNode)`, given here as the
`anchorContained` fact about the live anchor. -/
def componentSaveSelection (live : Option LiveRange) (anchorContained : Bool)
    (saved : Option LiveRange) : Option LiveRange :=
  match live with
  | some r => if anchorContained then some r else saved
  | none => saved

/-- `TextEditorComponent.restoreSelection` (same body as the service's). -/
def componentRestoreSelection (saved : Option LiveRange) (live : Option LiveRange) :
    Option LiveRange :=
  match saved with
  | some r => some r
  | none => live

/-! ### Format state

`FormatState` maps the six boolean command keys and `fontSize` to their
current values.  A probe bundles what the live DOM reports:
`document.queryCommandState(...)` for the booleans and
`parseFloat(getComputedStyle(anchor.parentElement).fontSize)` for the size
(`none` models `NaN`). -/

structure FormatState where
  bold : Bool
  italic : Bool
  underline : Bool
  justifyLeft : Bool
  justifyCenter : Bool
  justifyRight : Bool
  fontSize : ℚ
deriving DecidableEq, Repr

structure SelProbe where
  bold : Bool
  italic : Bool
  underline : Bool
  justifyLeft : Bool
  justifyCenter : Bool
  justifyRight : Bool
  computedFontSizePx : Option ℚ
  hasAnchor : Bool
  anchorInSurface : Bool
deriving DecidableEq, Repr

/-- Model of JavaScript's `parseFloat(x.toFixed(1))`: round to one decimal. -/
def roundTo1 (q : ℚ) : ℚ := (⌊q * 10 + 1 / 2⌋ : ℚ) / 10

/-- The probed font size: the computed style parsed and rounded to one
decimal, defaulting to 12 when unparseable. -/
def probedFontSize (p : SelProbe) : ℚ :=
  match p.computedFontSizePx with
  | some q => roundTo1 q
  | none => 12

/-- The full state built from a probe. -/
def probeState (p : SelProbe) : FormatState :=
  { bold := p.bold, italic := p.italic, underline := p.underline,
    justifyLeft := p.justifyLeft, justifyCenter := p.justifyCenter,
    justifyRight := p.justifyRight, fontSize := probedFontSize p }

/-- `ToolbarService.updateActiveStates`: re-probes every key when the live
selection has an anchor inside editable content, otherwise leaves the state
stale. -/
def updateActiveStates (st : FormatState) (p : SelProbe) : FormatState :=
  if p.hasAnchor && p.anchorInSurface then probeState p else st

/-- `TextEditorComponent.updateToolbarState`: same guard shape — returns the
stale state unless the anchor is inside the editor element. -/
def updateToolbarState (st : FormatState) (p : SelProbe) : FormatState :=
  if p.hasAnchor && p.anchorInSurface then probeState p else st

/-- The state update at the end of `ToolbarService.setFontSize`
(lines 217–222): `activeStates.next({ ...current, fontSize: size })` — the
requested size is force-set and every other key keeps its previous value; no
re-probe occurs in this variant. -/
def serviceSetFontSizeState (st : FormatState) (size : ℚ) : FormatState :=
  { st with fontSize := size }

/-- The state update at the end of `TextEditorComponent.setFontSize`
(lines 260–264): `updateToolbarState()` re-probes every key, then
`toolbarState['fontSize'] = size` force-sets the size, and the trailing
`this.onInput()` (line 264) calls `updateToolbarState()` once more — the DOM
and live selection are unchanged in between (`cleanupEmptyLines` works on a
detached div), so the same probe applies, and whenever the anchor is inside
the editor this second refresh overwrites the forced size with the re-probed
computed-style value rounded to one decimal. -/
def componentSetFontSizeState (st : FormatState) (p : SelProbe) (size : ℚ) :
    FormatState :=
  let st2 := updateToolbarState st p
  let st3 := { st2 with fontSize := size }
  updateToolbarState st3 p

/-! ### The `isUpdating` guard

Each operation is modelled as the sequence of observable editor steps it
performs; a guarded procedure separates the entry write, the `try` body and
the `finally` block.  Running with `throwAfter = some k` aborts the body after
its first `k` steps (an inner step raising), but the `finally` block still
runs; the exception then propagates. -/

inductive EditorOp where
  | setUpdating (b : Bool)
  | restoreSel
  | focusEditor
  | nativeCmd (c v : String)
  | domRewrite
  | saveSel
  | probeState
  | forceFontSize
  | emitInput
deriving DecidableEq, Repr

structure GuardedProc where
  entry : List EditorOp
  body : List EditorOp
  tail : List EditorOp
deriving DecidableEq, Repr

/-- The writes to `isUpdating` contained in a step sequence. -/
def flagWrites (ops : List EditorOp) : List Bool :=
  ops.filterMap fun op =>
    match op with
    | .setUpdating b => some b
    | _ => none

/-- Run a guarded procedure: the entry always runs, the body runs until an
inner step raises, the `tail` (the `finally` block) always runs.  Returns the
`isUpdating` writes performed and whether an exception propagates. -/
def runFlag (p : GuardedProc) (throwAfter : Option Nat) : List Bool × Bool :=
  let bodyDone := match throwAfter with
    | none => p.body
    | some k => p.body.take k
  (flagWrites (p.entry ++ bodyDone ++ p.tail), throwAfter.isSome)

/-- `ToolbarService.executeCommand` (lines 109–121): sets `isUpdating` true,
then `try { restore; styleWithCSS; command; save; update } finally
{ isUpdating false }`. -/
def serviceExecuteCommandProc : GuardedProc :=
  { entry := [.setUpdating true],
    body := [.restoreSel, .nativeCmd "styleWithCSS" "true", .nativeCmd "command" "value",
             .saveSel, .probeState],
    tail := [.setUpdating false] }

/-- `ToolbarService.setFontSize` (lines 124–227): sets `isUpdating` true, then
the whole marker rewrite inside `try { ... } finally { isUpdating false }`. -/
def serviceSetFontSizeProc : GuardedProc :=
  { entry := [.setUpdating true],
    body := [.restoreSel, .nativeCmd "styleWithCSS" "false",
             .nativeCmd "fontName" markerFont, .nativeCmd "styleWithCSS" "true",
             .domRewrite, .saveSel, .forceFontSize],
    tail := [.setUpdating false] }

/-- `TextEditorComponent.setFontSize` (lines 187–265): the component class
defines no `isUpdating` flag and the method touches none — its steps contain
no `setUpdating` write and there is no `try`/`finally`. -/
def componentSetFontSizeProc : GuardedProc :=
  { entry := [],
    body := [.restoreSel, .nativeCmd "styleWithCSS" "false",
             .nativeCmd "fontName" markerFont, .domRewrite, .saveSel,
             .probeState, .forceFontSize, .emitInput],
    tail := [] }

/-- `TextEditorComponent.execCommand` (lines 144–155): likewise performs no
`isUpdating` write. -/
def componentExecCommandProc : GuardedProc :=
  { entry := [],
    body := [.restoreSel, .focusEditor, .nativeCmd "styleWithCSS" "true",
             .nativeCmd "command" "value", .saveSel, .probeState, .emitInput],
    tail := [] }

/-! ### Command executor -/

/-- The state a command invocation can read or write. -/
structure EditorState where
  savedRange : Option LiveRange
  toolbarState : FormatState
  content : String
deriving DecidableEq, Repr

/-- What the environment supplies during one invocation: the live selection
after the native command ran, whether its anchor is inside the surface, the
probe for the state refresh, and the surface HTML afterwards. -/
structure CmdEnv where
  liveAfter : Option LiveRange
  anchorContained : Bool
  probe : SelProbe
  htmlAfter : String
deriving DecidableEq, Repr

/-- `TextEditorComponent.execCommand`: returns early when `isDisabled`;
otherwise restores the selection, focuses, runs
`styleWithCSS` then the command, re-saves, re-probes and emits the content.
The second component lists the `document.execCommand` invocations performed. -/
def componentExecCommand (isDisabled : Bool) (cmd value : String)
    (st : EditorState) (env : CmdEnv) : EditorState × List (String × String) :=
  if isDisabled then (st, [])
  else
    let saved2 := componentSaveSelection env.liveAfter env.anchorContained st.savedRange
    let tb2 := updateToolbarState st.toolbarState env.probe
    ({ savedRange := saved2, toolbarState := tb2, content := env.htmlAfter },
     [("styleWithCSS", "true"), (cmd, value)])

/-- `ToolbarService.executeCommand`: the source performs no disabled check —
the `surfaceDisabled` fact about the surface is never consulted — and always
invokes `styleWithCSS` and the command against the restored selection. -/
def serviceExecuteCommand (_surfaceDisabled : Bool) (cmd value : String)
    (st : EditorState) (env : CmdEnv) : EditorState × List (String × String) :=
  let saved2 := serviceSaveSelection env.liveAfter st.savedRange
  let tb2 := updateActiveStates st.toolbarState env.probe
  ({ savedRange := saved2, toolbarState := tb2, content := st.content },
   [("styleWithCSS", "true"), (cmd, value)])

/-! ### Font-size steppers and manual entry -/

/-- A `toolbarState` / `activeStates` entry: boolean, string or number. -/
inductive TSVal where
  | bool (b : Bool)
  | str (s : String)
  | num (q : ℚ)
deriving DecidableEq, Repr

/-- `getCurrentFontSize` (both the component and the floating toolbar):
`typeof size === 'number' ? size : 12`. -/
def getCurrentFontSize (v : TSVal) : ℚ :=
  match v with
  | .num q => q
  | _ => 12

/-- `changeFontSize(delta)` (component lines 165–171 and the floating-toolbar
variant): computes `current + delta` and calls `setFontSize` exactly when the
result is at least 1.  Returns the size passed to `setFontSize`, or `none`
when the call is skipped. -/
def changeFontSize (stored : TSVal) (delta : ℚ) : Option ℚ :=
  let current := getCurrentFontSize stored
  let newSize := current + delta
  if newSize ≥ 1 then some newSize else none

/-- `setManualFontSize(value)` (component lines 174–179 and the
floating-toolbar variant): `parseFloat` the input (`none` models `NaN`) and
call `setFontSize` exactly when it parses to a number at least 1. -/
def setManualFontSize (parsed : Option ℚ) : Option ℚ :=
  match parsed with
  | some q => if q ≥ 1 then some q else none
  | none => none

/-! ### `writeValue` -/

/-- The component's view of its surface: the stored `content` string, the
surface's current `innerHTML`, and whether `editorRef` is available. -/
structure CompView where
  content : String
  domHtml : String
  domPresent : Bool
deriving DecidableEq, Repr

/-- JavaScript `value || ''` for a nullable string: `null`/`undefined`
(modelled as `none`) and the empty string are falsy. -/
def jsOrEmpty (v : Option String) : String :=
  match v with
  | some s => if s == "" then "" else s
  | none => ""

/-- `TextEditorComponent.writeValue` (lines 50–55): stores `value || ''` and
rewrites the surface's HTML only when the surface exists and its current HTML
differs from the stored value. -/
def writeValue (v : Option String) (c : CompView) : CompView :=
  let newContent := jsOrEmpty v
  if c.domPresent && !(c.domHtml == newContent) then
    { content := newContent, domHtml := newContent, domPresent := c.domPresent }
  else
    { c with content := newContent }

/-! ## Claim theorems: state-model claims -/

/-- Helper: concatenation distributes over the flag-write extraction. -/
theorem flagWrites_append (a b : List EditorOp) :
    flagWrites (a ++ b) = flagWrites a ++ flagWrites b := by
  simp [flagWrites, List.filterMap_append]

/-- Helper: a step list with no flag writes still has none after truncation
(an inner step raising mid-body cannot manufacture a flag write). -/
theorem flagWrites_take_nil (ops : List EditorOp) (k : Nat)
    (h : flagWrites ops = []) : flagWrites (ops.take k) = [] := by
  have hsub : List.Sublist (flagWrites (ops.take k)) (flagWrites ops) :=
    (List.take_sublist k ops).filterMap _
  rw [h] at hsub
  exact List.sublist_nil.mp hsub

/-- Helper: the flag writes of a guarded run are those of the entry and the
`finally` block whenever the body itself writes none, at every abort point. -/
theorem runFlag_writes (p : GuardedProc) (t : Option Nat)
    (h : flagWrites p.body = []) :
    (runFlag p t).1 = flagWrites p.entry ++ flagWrites p.tail := by
  unfold runFlag
  cases t with
  | none => simp [flagWrites_append, h]
  | some k => simp [flagWrites_append, flagWrites_take_nil _ k h]

/-- C4, counterexample: the claim — the `isUpdating` flag is set true at entry
for *every* Command Executor / Font-Size Rewriter invocation, component
variant included — fails: the component's `setFontSize` performs no
`isUpdating` write at all (the component class defines no such flag). -/
theorem C4_component_flag_counterexample :
    ¬ (runFlag componentSetFontSizeProc none).1.head? = some true := by decide

/-- C4, amended: in the *service* variant, `executeCommand` and `setFontSize`
write `isUpdating := true` at entry and `isUpdating := false` when the
invocation ends, including when an inner step raises (the `finally` block
runs and the exception propagates); the component's `execCommand` and
`setFontSize` perform no `isUpdating` writes at all. -/
theorem C4_isUpdating_guard (throwAfter : Option Nat) :
    (runFlag serviceExecuteCommandProc throwAfter).1 = [true, false]
    ∧ (runFlag serviceSetFontSizeProc throwAfter).1 = [true, false]
    ∧ (runFlag serviceExecuteCommandProc throwAfter).2 = throwAfter.isSome
    ∧ (runFlag componentSetFontSizeProc throwAfter).1 = []
    ∧ (runFlag componentExecCommandProc throwAfter).1 = [] := by
  refine ⟨?_, ?_, rfl, ?_, ?_⟩ <;> rw [runFlag_writes _ _ (by decide)] <;> decide

/-- C5: `save()` with the live selection's common ancestor outside the
editable surface leaves the previously saved range unchanged (service walk
variant and component containment variant), and `restore()` with no saved
range is a no-op on the live selection in both variants (and is a total
function: no exception path exists). -/
theorem C5_saved_range_preserved (r : LiveRange) (saved live : Option LiveRange)
    (hout : isContentEditable r.ancestors = false) :
    serviceSaveSelection (some r) saved = saved
    ∧ componentSaveSelection (some r) false saved = saved
    ∧ serviceRestoreSelection none live = live
    ∧ componentRestoreSelection none live = live := by
  refine ⟨?_, rfl, rfl, rfl⟩
  simp [serviceSaveSelection, hout]

/-- C5 witness: a concrete saved range survives a `save()` issued while the
selection sits in a non-editable chain, and `restore()` from `none` keeps the
live selection. -/
theorem C5_saved_range_preserved_witness :
    serviceSaveSelection (some ⟨[⟨true, some "false", []⟩], 5⟩) (some ⟨[], 9⟩) = some ⟨[], 9⟩
    ∧ componentSaveSelection (some ⟨[⟨true, some "false", []⟩], 5⟩) false (some ⟨[], 9⟩)
        = some ⟨[], 9⟩
    ∧ serviceRestoreSelection none (some ⟨[], 2⟩) = some ⟨[], 2⟩
    ∧ componentRestoreSelection none (some ⟨[], 2⟩) = some ⟨[], 2⟩ :=
  C5_saved_range_preserved ⟨[⟨true, some "false", []⟩], 5⟩ (some ⟨[], 9⟩) (some ⟨[], 2⟩)
    (by decide)

/-- C9: the service's ownership walk rejects any chain that meets an element
with `contenteditable="false"` or with the `floating-toolbar` class before
meeting any element with `contenteditable="true"` — and likewise any chain
that reaches the root without ever meeting a `contenteditable="true"` element
(a non-editable region with no marked ancestor at all) — so `saveSelection`
leaves the saved range unchanged for both kinds of selection: clicking in the
toolbar's own input fields or in a non-editable region can never replace the
saved editor range. -/
theorem C9_toolbar_selection_rejected (pre : List NodeInfo) (e : NodeInfo)
    (rest chain : List NodeInfo) (k k2 : Nat) (saved saved2 : Option LiveRange)
    (hpre : ∀ x ∈ pre, ¬(x.isElement = true ∧ x.ceAttr = some "true"))
    (he : e.isElement = true)
    (hne : ¬ e.ceAttr = some "true")
    (hdec : e.ceAttr = some "false" ∨ e.classes.contains "floating-toolbar" = true)
    (hchain : ∀ x ∈ chain, ¬(x.isElement = true ∧ x.ceAttr = some "true")) :
    (isContentEditable (pre ++ e :: rest) = false
      ∧ serviceSaveSelection (some ⟨pre ++ e :: rest, k⟩) saved = saved)
    ∧ (isContentEditable chain = false
      ∧ serviceSaveSelection (some ⟨chain, k2⟩) saved2 = saved2) := by
  have step : ∀ (x : NodeInfo) (l : List NodeInfo),
      ¬(x.isElement = true ∧ x.ceAttr = some "true") →
      isContentEditable (x :: l) = isContentEditable l
        ∨ isContentEditable (x :: l) = false := by
    intro x l hx
    simp only [isContentEditable]
    split
    case isTrue hxe =>
      split
      case isTrue hxt => exact absurd ⟨hxe, by simpa using hxt⟩ hx
      case isFalse hxt =>
        split
        case isTrue _ => right; rfl
        case isFalse _ =>
          split
          case isTrue _ => right; rfl
          case isFalse _ => left; rfl
    case isFalse _ => left; rfl
  have hestep : isContentEditable (e :: rest) = false := by
    simp only [isContentEditable]
    split
    case isTrue _ =>
      split
      case isTrue hxt => exact absurd (by simpa using hxt) hne
      case isFalse hxt =>
        split
        case isTrue _ => rfl
        case isFalse hxf =>
          split
          case isTrue _ => rfl
          case isFalse hxc =>
            rcases hdec with h | h
            · exact absurd (by simp [h]) hxf
            · exact absurd (by simpa using h) hxc
    case isFalse hxe => exact absurd he hxe
  have hwalk : ∀ pre2 : List NodeInfo,
      (∀ x ∈ pre2, ¬(x.isElement = true ∧ x.ceAttr = some "true")) →
      isContentEditable (pre2 ++ e :: rest) = false := by
    intro pre2
    induction pre2 with
    | nil => intro _; exact hestep
    | cons x xs ih =>
        intro hp
        rcases step x (xs ++ e :: rest) (hp x (List.mem_cons_self _ _)) with h | h
        · rw [List.cons_append, h]
          exact ih fun y hy => hp y (List.mem_cons_of_mem _ hy)
        · rw [List.cons_append, h]
  have hroot : ∀ l : List NodeInfo,
      (∀ x ∈ l, ¬(x.isElement = true ∧ x.ceAttr = some "true")) →
      isContentEditable l = false := by
    intro l
    induction l with
    | nil => intro _; rfl
    | cons x xs ih =>
        intro hp
        rcases step x xs (hp x (List.mem_cons_self _ _)) with h | h
        · rw [h]
          exact ih fun y hy => hp y (List.mem_cons_of_mem _ hy)
        · exact h
  refine ⟨⟨hwalk pre hpre, ?_⟩, ⟨hroot chain hchain, ?_⟩⟩
  · simp [serviceSaveSelection, hwalk pre hpre]
  · simp [serviceSaveSelection, hroot chain hchain]

/-- C9 witness: a selection whose chain runs through the floating toolbar —
even with an editable element higher up — does not replace the saved range;
neither does a selection in a non-editable region whose chain reaches the
root with no `contenteditable` attribute and no toolbar class anywhere. -/
theorem C9_toolbar_selection_rejected_witness :
    (isContentEditable
        [⟨false, none, []⟩, ⟨true, none, ["floating-toolbar"]⟩, ⟨true, some "true", []⟩]
      = false
    ∧ serviceSaveSelection
        (some ⟨[⟨false, none, []⟩, ⟨true, none, ["floating-toolbar"]⟩,
                ⟨true, some "true", []⟩], 3⟩)
        (some ⟨[], 7⟩) = some ⟨[], 7⟩)
    ∧ (isContentEditable [⟨false, none, []⟩, ⟨true, none, ["article"]⟩, ⟨true, none, []⟩]
      = false
    ∧ serviceSaveSelection
        (some ⟨[⟨false, none, []⟩, ⟨true, none, ["article"]⟩, ⟨true, none, []⟩], 4⟩)
        (some ⟨[], 8⟩) = some ⟨[], 8⟩) :=
  C9_toolbar_selection_rejected [⟨false, none, []⟩] ⟨true, none, ["floating-toolbar"]⟩
    [⟨true, some "true", []⟩]
    [⟨false, none, []⟩, ⟨true, none, ["article"]⟩, ⟨true, none, []⟩]
    3 4 (some ⟨[], 7⟩) (some ⟨[], 8⟩) (by decide) (by decide) (by decide)
    (by decide) (by decide)

/-- C3, counterexample: the claim — after `setFontSize(s)` every key other
than `fontSize` has been re-probed from the live selection in *both*
variants — fails for the service variant: its update spreads the previous
state, so a stale `bold := true` survives although the live probe reports
`bold = false` (shown by comparing against the re-probed state the claim
demands). -/
theorem C3_service_stale_counterexample :
    serviceSetFontSizeState ⟨true, false, false, false, false, false, 12⟩ 14
      ≠ { updateActiveStates ⟨true, false, false, false, false, false, 12⟩
            ⟨false, false, false, false, false, false, some 14, true, true⟩ with
          fontSize := 14 } := by decide

/-- C3, amended: the force-set survives only in the service variant.  In the
service variant `setFontSize(s)` leaves `fontSize = s` exactly while every
other key keeps its previous value (no re-probe occurs there).  In the
component variant the trailing `onInput()` re-runs `updateToolbarState()`
after the force-set, so whenever the live anchor is inside the surface the
whole state — `fontSize` included — ends up freshly probed, with `fontSize`
the computed style rounded to one decimal rather than `s`; the forced `s`
survives only when the anchor probe is rejected (no anchor, or anchor outside
the surface). -/
theorem C3_fontSize_force_set (st : FormatState) (p : SelProbe) (size : ℚ) :
    (serviceSetFontSizeState st size).fontSize = size
    ∧ (serviceSetFontSizeState st size).bold = st.bold
    ∧ (serviceSetFontSizeState st size).italic = st.italic
    ∧ (serviceSetFontSizeState st size).underline = st.underline
    ∧ (serviceSetFontSizeState st size).justifyLeft = st.justifyLeft
    ∧ (serviceSetFontSizeState st size).justifyCenter = st.justifyCenter
    ∧ (serviceSetFontSizeState st size).justifyRight = st.justifyRight
    ∧ ((p.hasAnchor && p.anchorInSurface) = true →
        componentSetFontSizeState st p size = probeState p)
    ∧ ((p.hasAnchor && p.anchorInSurface) = false →
        componentSetFontSizeState st p size = { st with fontSize := size }) := by
  refine ⟨rfl, rfl, rfl, rfl, rfl, rfl, rfl, fun h => ?_, fun h => ?_⟩
  · simp [componentSetFontSizeState, updateToolbarState, h]
  · simp [componentSetFontSizeState, updateToolbarState, h]

/-- C3 witness: with the anchor inside the surface the component variant ends
up with the fully re-probed state — the forced 14.25 is overwritten by the
rounded computed-style value 14.3 — while the service variant keeps the
force-set size exactly; with the anchor outside, the component keeps the
forced size. -/
theorem C3_fontSize_force_set_witness :
    componentSetFontSizeState ⟨true, false, false, false, false, false, 12⟩
        ⟨false, true, false, false, false, false, some (57/4), true, true⟩ (57/4)
      = probeState ⟨false, true, false, false, false, false, some (57/4), true, true⟩
    ∧ componentSetFontSizeState ⟨true, false, false, false, false, false, 12⟩
        ⟨false, true, false, false, false, false, some (57/4), true, false⟩ (57/4)
      = { bold := true, italic := false, underline := false, justifyLeft := false,
          justifyCenter := false, justifyRight := false, fontSize := 57/4 }
    ∧ (serviceSetFontSizeState ⟨true, false, false, false, false, false, 12⟩
        (29/2)).fontSize = 29/2 :=
  ⟨(C3_fontSize_force_set ⟨true, false, false, false, false, false, 12⟩
      ⟨false, true, false, false, false, false, some (57/4), true, true⟩
      (57/4)).2.2.2.2.2.2.2.1 (by decide),
   (C3_fontSize_force_set ⟨true, false, false, false, false, false, 12⟩
      ⟨false, true, false, false, false, false, some (57/4), true, false⟩
      (57/4)).2.2.2.2.2.2.2.2 (by decide),
   (C3_fontSize_force_set ⟨true, false, false, false, false, false, 12⟩
      ⟨false, true, false, false, false, false, some (57/4), true, true⟩ (29/2)).1⟩

/-- C6, counterexample: the claim — invoking the Command Executor while the
surface is disabled is a no-op in both variants — fails for the service
variant: `ToolbarService.executeCommand` performs no disabled check and still
invokes the native primitives (`styleWithCSS` and the command itself). -/
theorem C6_service_unguarded_counterexample :
    (serviceExecuteCommand true "bold" ""
        ⟨none, ⟨false, false, false, false, false, false, 12⟩, ""⟩
        ⟨none, false, ⟨false, false, false, false, false, false, none, false, false⟩,
         ""⟩).2 ≠ [] := by decide

/-- C6, amended: the component's `execCommand` is a no-op when the surface is
disabled — no native primitive is invoked, and the saved range, format state
and content are all unchanged — while the service's `executeCommand` has no
disabled guard and invokes the native primitives regardless of the surface's
disabled state. -/
theorem C6_disabled_guard (cmd value : String) (st : EditorState) (env : CmdEnv)
    (d : Bool) :
    componentExecCommand true cmd value st env = (st, [])
    ∧ (serviceExecuteCommand d cmd value st env).2
        = [("styleWithCSS", "true"), (cmd, value)] :=
  ⟨rfl, rfl⟩

/-- C8: `changeFontSize(delta)` computes `current + delta` from the stored
`fontSize` entry (a non-numeric stored value treated as 12) and invokes
`setFontSize` with the result exactly when it is at least 1, otherwise doing
nothing; from 12, `+1` requests 13, and from 1, `-1` is a no-op;
`setManualFontSize(v)` invokes `setFontSize(parseFloat(v))` exactly when the
input parses to a number at least 1, and is a no-op for non-numeric or
below-1 input. -/
theorem C8_fontSize_steppers (stored : TSVal) (delta q : ℚ) :
    changeFontSize stored delta
      = (if getCurrentFontSize stored + delta ≥ 1
          then some (getCurrentFontSize stored + delta) else none)
    ∧ changeFontSize (.num 12) 1 = some 13
    ∧ changeFontSize (.num 1) (-1) = none
    ∧ setManualFontSize (some q) = (if q ≥ 1 then some q else none)
    ∧ setManualFontSize none = none := by
  refine ⟨rfl, by norm_num [changeFontSize, getCurrentFontSize],
    by norm_num [changeFontSize, getCurrentFontSize], rfl, rfl⟩

/-- C10: `writeValue(v)` stores the empty string when `v` is null/undefined or
empty and otherwise stores `v`; the surface's HTML is rewritten only when the
surface exists and its current HTML differs from the stored value, so a
`writeValue` carrying exactly what the surface already holds leaves the DOM
untouched. -/
theorem C10_writeValue (v : Option String) (s : String) (c : CompView) :
    (writeValue v c).content = jsOrEmpty v
    ∧ jsOrEmpty none = ""
    ∧ jsOrEmpty (some "") = ""
    ∧ (s ≠ "" → jsOrEmpty (some s) = s)
    ∧ ((writeValue v c).domHtml ≠ c.domHtml →
        c.domPresent = true ∧ c.domHtml ≠ jsOrEmpty v)
    ∧ (c.domHtml = jsOrEmpty v → (writeValue v c).domHtml = c.domHtml) := by
  have hw : writeValue v c =
      if c.domPresent && !(c.domHtml == jsOrEmpty v) then
        { content := jsOrEmpty v, domHtml := jsOrEmpty v, domPresent := c.domPresent }
      else { c with content := jsOrEmpty v } := rfl
  refine ⟨?_, rfl, rfl, fun hs => ?_, fun hchange => ?_, fun heq => ?_⟩
  · rw [hw]; split <;> rfl
  · simp [jsOrEmpty, hs]
  · rw [hw] at hchange
    split at hchange
    case isTrue hcond =>
      simp only [Bool.and_eq_true] at hcond
      rcases hcond with ⟨h1, h2⟩
      refine ⟨h1, ?_⟩
      intro hcontra
      rw [hcontra] at h2
      simp at h2
    case isFalse _ => exact absurd rfl hchange
  · rw [hw]
    have hcond : (c.domPresent && !(c.domHtml == jsOrEmpty v)) = false := by
      simp [heq]
    rw [hcond]
    simp

/-- C10 witness: pushing the HTML the surface already holds leaves the DOM
untouched while the content is stored. -/
theorem C10_writeValue_witness :
    (writeValue (some "<b>x</b>") ⟨"", "<b>x</b>", true⟩).domHtml = "<b>x</b>"
    ∧ (writeValue (some "<b>x</b>") ⟨"", "<b>x</b>", true⟩).content = "<b>x</b>" :=
  ⟨(C10_writeValue (some "<b>x</b>") "y" ⟨"", "<b>x</b>", true⟩).2.2.2.2.2 (by decide),
   (C10_writeValue (some "<b>x</b>") "y" ⟨"", "<b>x</b>", true⟩).1⟩

/-! ## Claim theorems: the font-size rewrite -/

/-- C7, counterexample: the claim — the wrappers are collected in DOM order
even when the marker surfaces in both of its forms — fails: `toReplace` is
built as all `font[face=...]` matches followed by all `span[style*=...]`
matches, so with a span-form marker preceding a font-form marker in the
document, the collected wrappers `[10, 11]` are in the reverse of DOM order
(the rewritten surface lists 11 before 10), and the rebuilt selection runs
from before wrapper 10 to after wrapper 11 instead of from before the first
wrapper in DOM order (11) to after the last (10). -/
theorem C7_mixed_forms_counterexample :
    (setFontSizeSurface 18 0 "DIV" [] []
        (.elemCons 1 "SPAN" [] [("font-family", .raw "cdk-marker-font")]
          (.textCons "a" .nil)
          (.elemCons 2 "FONT" [("face", "cdk-marker-font")] []
            (.textCons "b" .nil) .nil)) 10).2.2 = [10, 11]
    ∧ elemIdsF (setFontSizeSurface 18 0 "DIV" [] []
        (.elemCons 1 "SPAN" [] [("font-family", .raw "cdk-marker-font")]
          (.textCons "a" .nil)
          (.elemCons 2 "FONT" [("face", "cdk-marker-font")] []
            (.textCons "b" .nil) .nil)) 10).1 = [0, 11, 10]
    ∧ ¬ List.Sublist
        (setFontSizeSurface 18 0 "DIV" [] []
          (.elemCons 1 "SPAN" [] [("font-family", .raw "cdk-marker-font")]
            (.textCons "a" .nil)
            (.elemCons 2 "FONT" [("face", "cdk-marker-font")] []
              (.textCons "b" .nil) .nil)) 10).2.2
        (elemIdsF (setFontSizeSurface 18 0 "DIV" [] []
          (.elemCons 1 "SPAN" [] [("font-family", .raw "cdk-marker-font")]
            (.textCons "a" .nil)
            (.elemCons 2 "FONT" [("face", "cdk-marker-font")] []
              (.textCons "b" .nil) .nil)) 10).1)
    ∧ rebuildSelection (setFontSizeSurface 18 0 "DIV" [] []
        (.elemCons 1 "SPAN" [] [("font-family", .raw "cdk-marker-font")]
          (.textCons "a" .nil)
          (.elemCons 2 "FONT" [("face", "cdk-marker-font")] []
            (.textCons "b" .nil) .nil)) 10).2.2 = some (10, 11) := by
  refine ⟨by decide, by decide, by decide, by decide⟩

/-! ## Forest lemmas -/

theorem mem_elemIdsF (f : DForest) (j : Nat) :
    j ∈ elemIdsF f ↔ ∃ e ∈ elemsF f, e.id = j := by
  simp [elemIdsF, List.mem_map]

theorem appF_nil (f : DForest) : appF f .nil = f := by
  induction f with
  | nil => rfl
  | textCons s r ih => simp [appF, ih]
  | elemCons i t a st ch r ih1 ih2 => simp [appF, ih2]

theorem elemsF_appF (a b : DForest) :
    elemsF (appF a b) = elemsF a ++ elemsF b := by
  induction a with
  | nil => rfl
  | textCons s r ih => simp [appF, elemsF, ih]
  | elemCons i t aa st ch r ih1 ih2 => simp [appF, elemsF, ih2]

theorem elemIdsF_appF (a b : DForest) :
    elemIdsF (appF a b) = elemIdsF a ++ elemIdsF b := by
  simp [elemIdsF, elemsF_appF]

theorem topIdsF_sub (f : DForest) : ∀ j ∈ topIdsF f, j ∈ elemIdsF f := by
  induction f with
  | nil => intro j h; exact absurd h (by simp [topIdsF])
  | textCons s r ih => exact ih
  | elemCons i t a st ch r ih1 ih2 =>
      intro j h
      rcases List.mem_cons.mp h with h | h
      · subst h; simp [elemIdsF, elemsF]
      · have := (mem_elemIdsF r j).mp (ih2 j h)
        rw [mem_elemIdsF]
        obtain ⟨e, he, hid⟩ := this
        exact ⟨e, by simp [elemsF]; tauto, hid⟩

theorem collectF_appF (p : ENode → Bool) (a b : DForest) :
    collectF p (appF a b) = collectF p a ++ collectF p b := by
  induction a with
  | nil => rfl
  | textCons s r ih => simp [appF, collectF, ih]
  | elemCons i t aa st ch r ih1 ih2 => simp [appF, collectF, ih2]

theorem collectF_nil_of (p : ENode → Bool) (f : DForest)
    (h : ∀ e ∈ elemsF f, p e = false) : collectF p f = [] := by
  induction f with
  | nil => rfl
  | textCons s r ih => exact ih fun e he => h e he
  | elemCons i t a st ch r ih1 ih2 =>
      have hroot : p ⟨i, t, a, st, ch⟩ = false := h _ (by simp [elemsF])
      have hch : collectF p ch = [] :=
        ih1 fun e he => h e (by simp [elemsF]; tauto)
      have hr : collectF p r = [] :=
        ih2 fun e he => h e (by simp [elemsF]; tauto)
      simp [collectF, hroot, hch, hr]

theorem collectF_sound (p : ENode → Bool) (f : DForest) :
    ∀ j ∈ collectF p f, ∃ e ∈ elemsF f, p e = true ∧ e.id = j := by
  induction f with
  | nil => intro j h; exact absurd h (by simp [collectF])
  | textCons s r ih => exact ih
  | elemCons i t a st ch r ih1 ih2 =>
      intro j h
      simp only [collectF, List.mem_append] at h
      rcases h with (h | h | h)
      · by_cases hp : p ⟨i, t, a, st, ch⟩ = true
        · rw [if_pos hp] at h
          simp at h
          exact ⟨⟨i, t, a, st, ch⟩, by simp [elemsF], hp, by simp [h]⟩
        · rw [if_neg hp] at h
          exact absurd h (by simp)
      · obtain ⟨e, he, hpe, hid⟩ := ih1 j h
        exact ⟨e, by simp [elemsF]; tauto, hpe, hid⟩
      · obtain ⟨e, he, hpe, hid⟩ := ih2 j h
        exact ⟨e, by simp [elemsF]; tauto, hpe, hid⟩

theorem collectF_complete (p : ENode → Bool) (f : DForest) :
    ∀ e ∈ elemsF f, p e = true → e.id ∈ collectF p f := by
  induction f with
  | nil => intro e he; exact absurd he (by simp [elemsF])
  | textCons s r ih => exact ih
  | elemCons i t a st ch r ih1 ih2 =>
      intro e he hpe
      simp only [elemsF, List.mem_cons, List.mem_append] at he
      rcases he with he | he | he
      · subst he
        simp [collectF, hpe]
      · have := ih1 e he hpe
        simp [collectF]; tauto
      · have := ih2 e he hpe
        simp [collectF]; tauto

theorem splitF_none_of (i : Nat) (f : DForest)
    (h : ∀ j ∈ topIdsF f, j ≠ i) : splitF i f = none := by
  induction f with
  | nil => rfl
  | textCons s r ih =>
      simp [splitF, ih fun j hj => h j hj]
  | elemCons j t a st ch r ih1 ih2 =>
      have hj : j ≠ i := h j (by simp [topIdsF])
      have hr : splitF i r = none := ih2 fun x hx => h x (by simp [topIdsF]; tauto)
      simp [splitF, hj, hr]

theorem splitF_here (i : Nat) (t : String) (a : List (String × String))
    (st : List (String × StyleVal)) (ch r : DForest) :
    splitF i (.elemCons i t a st ch r) = some (.nil, ⟨i, t, a, st, ch⟩, r) := by
  simp [splitF]

theorem splitF_appF_left (i : Nat) (a b : DForest)
    (h : ∀ j ∈ topIdsF a, j ≠ i) :
    splitF i (appF a b)
      = (splitF i b).map fun x => (appF a x.1, x.2.1, x.2.2) := by
  induction a with
  | nil =>
      cases hx : splitF i b <;> simp [appF, hx]
  | textCons s r ih =>
      have := ih fun j hj => h j hj
      cases hx : splitF i b <;> simp [appF, splitF, this, hx]
  | elemCons j t aa st ch r ih1 ih2 =>
      have hj : j ≠ i := h j (by simp [topIdsF])
      have := ih2 fun x hx => h x (by simp [topIdsF]; tauto)
      cases hx : splitF i b <;> simp [appF, splitF, hj, this, hx]

theorem splitF_some_shape (i : Nat) (f : DForest) (x : DForest × ENode × DForest)
    (h : splitF i f = some x) :
    f = appF x.1 (.elemCons x.2.1.id x.2.1.tag x.2.1.attrs x.2.1.style x.2.1.children x.2.2)
    ∧ x.2.1.id = i := by
  induction f generalizing x with
  | nil => exact absurd h (by simp [splitF])
  | textCons s r ih =>
      simp only [splitF, Option.map_eq_some'] at h
      obtain ⟨y, hy, rfl⟩ := h
      obtain ⟨h1, h2⟩ := ih y hy
      exact ⟨by simp [appF]; exact h1, h2⟩
  | elemCons j t a st ch r ih1 ih2 =>
      by_cases hj : j = i
      · subst hj
        rw [splitF_here] at h
        obtain rfl := Option.some.inj h
        exact ⟨rfl, rfl⟩
      · have hbeq : (j == i) = false := by simp [hj]
        simp only [splitF, hbeq, Bool.false_eq_true, if_false, Option.map_eq_some'] at h
        obtain ⟨y, hy, rfl⟩ := h
        obtain ⟨h1, h2⟩ := ih2 y hy
        exact ⟨by simp [appF]; exact h1, h2⟩

theorem findPair_cons {α : Type} (x : String × α) (l : List (String × α)) (k : String) :
    ((x :: l).find? fun p => p.1 == k)
      = if x.1 == k then some x else l.find? fun p => p.1 == k := by
  cases hx : (x.1 == k) <;> simp [List.find?, hx]

theorem filterPair_cons {α : Type} (x : String × α) (l : List (String × α)) (k : String) :
    ((x :: l).filter fun p => !(p.1 == k))
      = if x.1 == k then l.filter fun p => !(p.1 == k)
        else x :: l.filter fun p => !(p.1 == k) := by
  cases hx : (x.1 == k) <;> simp [List.filter_cons, hx]

theorem attrGet_cons (x : String × String) (l : List (String × String)) (k : String) :
    attrGet (x :: l) k = if x.1 == k then some x.2 else attrGet l k := by
  rw [attrGet, findPair_cons]
  by_cases h : (x.1 == k) = true
  · simp [h]
  · simp [h, attrGet]

theorem attrRemove_cons (x : String × String) (l : List (String × String)) (k : String) :
    attrRemove (x :: l) k
      = if x.1 == k then attrRemove l k else x :: attrRemove l k := by
  rw [attrRemove, filterPair_cons]
  by_cases h : (x.1 == k) = true
  · simp [h, attrRemove]
  · simp [h, attrRemove]

theorem styleGet_cons (x : String × StyleVal) (l : List (String × StyleVal)) (k : String) :
    styleGet (x :: l) k = if x.1 == k then some x.2 else styleGet l k := by
  rw [styleGet, findPair_cons]
  by_cases h : (x.1 == k) = true
  · simp [h]
  · simp [h, styleGet]

theorem styleRemove_cons (x : String × StyleVal) (l : List (String × StyleVal)) (k : String) :
    styleRemove (x :: l) k
      = if x.1 == k then styleRemove l k else x :: styleRemove l k := by
  rw [styleRemove, filterPair_cons]
  by_cases h : (x.1 == k) = true
  · simp [h, styleRemove]
  · simp [h, styleRemove]

theorem attrGet_attrRemove_self (a : List (String × String)) (k : String) :
    attrGet (attrRemove a k) k = none := by
  induction a with
  | nil => rfl
  | cons x xs ih =>
      rw [attrRemove_cons]
      by_cases h : (x.1 == k) = true
      · rw [if_pos h]; exact ih
      · rw [if_neg h, attrGet_cons, if_neg h]; exact ih

theorem attrGet_attrRemove_mono (a : List (String × String)) (k k' : String) (v : String)
    (h : attrGet (attrRemove a k) k' = some v) : attrGet a k' = some v := by
  induction a with
  | nil => exact absurd h (by simp [attrRemove, attrGet])
  | cons x xs ih =>
      rw [attrRemove_cons] at h
      by_cases hk : (x.1 == k) = true
      · rw [if_pos hk] at h
        rw [attrGet_cons]
        by_cases hk' : (x.1 == k') = true
        · -- then k' = k, and the filtered list holds no key-k entry
          have hkk : k = k' := by
            have h1 := beq_iff_eq.mp hk
            have h2 := beq_iff_eq.mp hk'
            rw [← h1, ← h2]
          rw [← hkk, attrGet_attrRemove_self] at h
          exact absurd h (by simp)
        · rw [if_neg hk']; exact ih h
      · rw [if_neg hk, attrGet_cons] at h
        rw [attrGet_cons]
        by_cases hk' : (x.1 == k') = true
        · rw [if_pos hk'] at h ⊢; exact h
        · rw [if_neg hk'] at h ⊢; exact ih h

theorem styleHasMarker_styleRemove_mono (st : List (String × StyleVal)) (k : String)
    (h : styleHasMarker (styleRemove st k) = true) : styleHasMarker st = true := by
  simp only [styleHasMarker, styleRemove, List.any_eq_true] at h ⊢
  obtain ⟨p, hp, hv⟩ := h
  exact ⟨p, List.mem_of_mem_filter hp, hv⟩

theorem styleHasMarker_styleSet_px_mono (st : List (String × StyleVal)) (k : String) (q : ℚ)
    (h : styleHasMarker (styleSet st k (.px q)) = true) : styleHasMarker st = true := by
  simp only [styleSet, styleHasMarker, List.any_append, Bool.or_eq_true] at h
  rcases h with h | h
  · exact styleHasMarker_styleRemove_mono st k (by simpa [styleHasMarker] using h)
  · simp [valHasMarker] at h

theorem styleGet_styleRemove_self (st : List (String × StyleVal)) (k : String) :
    styleGet (styleRemove st k) k = none := by
  induction st with
  | nil => rfl
  | cons x xs ih =>
      rw [styleRemove_cons]
      by_cases h : (x.1 == k) = true
      · rw [if_pos h]; exact ih
      · rw [if_neg h, styleGet_cons, if_neg h]; exact ih

theorem styleGet_styleSet_self (st : List (String × StyleVal)) (k : String) (v : StyleVal) :
    styleGet (styleSet st k v) k = some v := by
  have hfind : (styleRemove st k).find? (fun p => p.1 == k) = none := by
    have := styleGet_styleRemove_self st k
    simp only [styleGet, Option.map_eq_none'] at this
    exact this
  simp [styleSet, styleGet, List.find?_append, hfind]

/-- The per-element effect of the descendant cleanup. -/
def cleanE (e : ENode) : ENode :=
  ⟨e.id, e.tag,
   (if e.tag == "FONT" then attrRemove (attrRemove e.attrs "size") "face" else e.attrs),
   styleRemove e.style "font-size", cleanF e.children⟩

theorem elemsF_cleanF (f : DForest) :
    elemsF (cleanF f) = (elemsF f).map cleanE := by
  induction f with
  | nil => rfl
  | textCons s r ih => simpa [cleanF, elemsF] using ih
  | elemCons i t a st ch r ih1 ih2 =>
      simp [cleanF, elemsF, ih1, ih2, cleanE]

theorem carriesMarkerE_cleanE_mono (e : ENode)
    (h : carriesMarkerE (cleanE e) = true) : carriesMarkerE e = true := by
  simp only [carriesMarkerE, cleanE, Bool.or_eq_true] at h ⊢
  rcases h with h | h
  · left
    rw [beq_iff_eq] at h ⊢
    by_cases ht : (e.tag == "FONT") = true
    · rw [if_pos ht] at h
      exact attrGet_attrRemove_mono _ _ _ _
        (attrGet_attrRemove_mono _ _ _ _ h)
    · rwa [if_neg ht] at h
  · right
    exact styleHasMarker_styleRemove_mono _ _ h

theorem freshCopyF_mono (f : DForest) (n : Nat) : n ≤ (freshCopyF f n).2 := by
  induction f generalizing n with
  | nil => exact le_refl n
  | textCons s r ih => simpa [freshCopyF] using ih n
  | elemCons i t a st ch r ih1 ih2 =>
      simp only [freshCopyF]
      calc n ≤ n + 1 := Nat.le_succ n
        _ ≤ (freshCopyF ch (n + 1)).2 := ih1 (n + 1)
        _ ≤ (freshCopyF r (freshCopyF ch (n + 1)).2).2 := ih2 _

theorem freshCopyF_ids_bounds (f : DForest) (n : Nat) :
    ∀ j ∈ elemIdsF (freshCopyF f n).1, n ≤ j ∧ j < (freshCopyF f n).2 := by
  induction f generalizing n with
  | nil => intro j h; exact absurd h (by simp [freshCopyF, elemIdsF, elemsF])
  | textCons s r ih =>
      intro j h
      simpa [freshCopyF] using ih n j (by simpa [freshCopyF, elemIdsF, elemsF] using h)
  | elemCons i t a st ch r ih1 ih2 =>
      intro j h
      simp only [freshCopyF, elemIdsF, elemsF, List.map_cons, List.map_append,
        List.mem_cons, List.mem_append] at h
      rcases h with h | h | h
      · subst h
        refine ⟨le_refl _, ?_⟩
        calc j < j + 1 := Nat.lt_succ_self j
          _ ≤ (freshCopyF ch (j + 1)).2 := freshCopyF_mono _ _
          _ ≤ (freshCopyF r (freshCopyF ch (j + 1)).2).2 := freshCopyF_mono _ _
      · have := ih1 (n + 1) j (by simpa [elemIdsF] using h)
        exact ⟨Nat.le_of_succ_le this.1,
          lt_of_lt_of_le this.2 (freshCopyF_mono r _)⟩
      · have := ih2 (freshCopyF ch (n + 1)).2 j (by simpa [elemIdsF] using h)
        refine ⟨le_trans (Nat.le_succ n) (le_trans (freshCopyF_mono ch _) this.1), this.2⟩

theorem freshCopyF_ids_nodup (f : DForest) (n : Nat) :
    (elemIdsF (freshCopyF f n).1).Nodup := by
  induction f generalizing n with
  | nil => simp [freshCopyF, elemIdsF, elemsF]
  | textCons s r ih => simpa [freshCopyF, elemIdsF, elemsF] using ih n
  | elemCons i t a st ch r ih1 ih2 =>
      simp only [freshCopyF, elemIdsF, elemsF, List.map_cons, List.map_append]
      refine List.Nodup.cons ?_ ?_
      · intro hmem
        rcases List.mem_append.mp hmem with h | h
        · have := (freshCopyF_ids_bounds ch (n + 1) n (by simpa [elemIdsF] using h)).1
          omega
        · have := (freshCopyF_ids_bounds r _ n (by simpa [elemIdsF] using h)).1
          have h2 : n + 1 ≤ (freshCopyF ch (n + 1)).2 := freshCopyF_mono _ _
          omega
      · refine List.Nodup.append ?_ ?_ ?_
        · simpa [elemIdsF] using ih1 (n + 1)
        · simpa [elemIdsF] using ih2 (freshCopyF ch (n + 1)).2
        · intro j hj hj2
          have b1 := (freshCopyF_ids_bounds ch (n + 1) j (by simpa [elemIdsF] using hj)).2
          have b2 := (freshCopyF_ids_bounds r _ j (by simpa [elemIdsF] using hj2)).1
          omega

theorem freshCopyF_elems (f : DForest) (n : Nat) :
    ∀ e ∈ elemsF (freshCopyF f n).1,
      ∃ e2 ∈ elemsF f, e2.tag = e.tag ∧ e2.attrs = e.attrs ∧ e2.style = e.style := by
  induction f generalizing n with
  | nil => intro e he; exact absurd he (by simp [freshCopyF, elemsF])
  | textCons s r ih =>
      intro e he
      exact ih n e (by simpa [freshCopyF, elemsF] using he)
  | elemCons i t a st ch r ih1 ih2 =>
      intro e he
      simp only [freshCopyF, elemsF, List.mem_cons, List.mem_append] at he
      rcases he with he | he | he
      · subst he
        exact ⟨⟨i, t, a, st, ch⟩, by simp [elemsF], rfl, rfl, rfl⟩
      · obtain ⟨e2, he2, h⟩ := ih1 (n + 1) e he
        exact ⟨e2, by simp [elemsF]; tauto, h⟩
      · obtain ⟨e2, he2, h⟩ := ih2 _ e he
        exact ⟨e2, by simp [elemsF]; tauto, h⟩

theorem carriesMarkerE_fields (e e2 : ENode) (ha : e2.attrs = e.attrs)
    (hs : e2.style = e.style) : carriesMarkerE e2 = carriesMarkerE e := by
  simp [carriesMarkerE, ha, hs]

theorem carrier_of_fontMarker (e : ENode) (h : isFontMarkerE e = true) :
    carriesMarkerE e = true := by
  simp only [isFontMarkerE, Bool.and_eq_true] at h
  simp [carriesMarkerE, h.2]

theorem carrier_of_spanMarker (e : ENode) (h : isSpanMarkerE e = true) :
    carriesMarkerE e = true := by
  simp only [isSpanMarkerE, Bool.and_eq_true] at h
  simp [carriesMarkerE, h.2]

theorem elemIdsF_elemCons (id : Nat) (t : String) (a : List (String × String))
    (st : List (String × StyleVal)) (ch r : DForest) :
    elemIdsF (.elemCons id t a st ch r) = id :: (elemIdsF ch ++ elemIdsF r) := by
  simp [elemIdsF, elemsF]

theorem processF_absent (sz : ℚ) (i : Nat) (f : DForest) (n : Nat)
    (h : i ∉ elemIdsF f) : processF sz i f n = (f, n, []) := by
  induction f generalizing n with
  | nil => rfl
  | textCons s r ih =>
      have hr : i ∉ elemIdsF r := by
        intro hc; exact h (by simpa [elemIdsF, elemsF] using hc)
      simp [processF, ih n hr]
  | elemCons id t a st ch r ih1 ih2 =>
      rw [elemIdsF_elemCons] at h
      have hch : i ∉ elemIdsF ch := fun hc => h (by simp [hc])
      have hr : i ∉ elemIdsF r := fun hc => h (by simp [hc])
      have hsplit : splitF i ch = none :=
        splitF_none_of i ch fun j hj hji =>
          hch (hji ▸ topIdsF_sub ch j hj)
      simp only [processF, hsplit]
      simp [ih1 n hch, ih2 n hr]

theorem processF_appF (sz : ℚ) (i : Nat) (a b : DForest) (n : Nat) :
    processF sz i (appF a b) n
      = (appF (processF sz i a n).1 (processF sz i b (processF sz i a n).2.1).1,
         (processF sz i b (processF sz i a n).2.1).2.1,
         (processF sz i a n).2.2 ++ (processF sz i b (processF sz i a n).2.1).2.2) := by
  induction a generalizing n with
  | nil => simp [appF, processF]
  | textCons s r ih => simp [appF, processF, ih]
  | elemCons id t aa st ch r ih1 ih2 =>
      simp only [appF, processF]
      cases hsplit : splitF i ch with
      | some x =>
          obtain ⟨pre, el, post⟩ := x
          by_cases hg : (t == "SPAN" && styleTruthy (styleGet st "font-size")
              && (forestLen ch == 1)) = true
          · simp only [hg, if_true, ih2, appF]
            simp
          · simp only [hg, if_false, ih2, appF]
            simp [hg]
      | none =>
          simp only [ih2, appF]
          simp

theorem elemIdsF_cleanF (f : DForest) : elemIdsF (cleanF f) = elemIdsF f := by
  simp only [elemIdsF, elemsF_cleanF, List.map_map]
  rfl

theorem splitF_none_top (i : Nat) (f : DForest) (h : splitF i f = none) :
    i ∉ topIdsF f := by
  induction f with
  | nil => simp [topIdsF]
  | textCons s r ih =>
      simp only [splitF, Option.map_eq_none'] at h
      simpa [topIdsF] using ih h
  | elemCons j t a st ch r ih1 ih2 =>
      by_cases hj : (j == i) = true
      · rw [splitF, if_pos hj] at h
        exact absurd h (by simp)
      · rw [splitF, if_neg hj] at h
        simp only [Option.map_eq_none'] at h
        have := ih2 h
        simp only [topIdsF, List.mem_cons]
        rintro (hc | hc)
        · exact hj (by simp [hc])
        · exact this hc

theorem carrier_new_span (w : Nat) (sz : ℚ) (copies : DForest) :
    carriesMarkerE ⟨w, "SPAN", [], [("font-size", .px sz)], copies⟩ = false := rfl

theorem elemsF_elemCons (id : Nat) (t : String) (a : List (String × String))
    (st : List (String × StyleVal)) (ch r : DForest) :
    elemsF (.elemCons id t a st ch r) = ⟨id, t, a, st, ch⟩ :: (elemsF ch ++ elemsF r) :=
  rfl

/-- Well-formedness of a forest for processing marker `i`: identities are
unique and below the fresh counter, no marker-carrying element contains
another, every element with identity `i` carries the marker, and `i` is not a
top-level identity (the marked element sits strictly inside the forest's
elements, as it does inside the container). -/
def GoodF (i : Nat) (f : DForest) (n : Nat) : Prop :=
  (elemIdsF f).Nodup
  ∧ (∀ j ∈ elemIdsF f, j < n)
  ∧ (∀ e ∈ elemsF f, carriesMarkerE e = true →
      ∀ e2 ∈ elemsF e.children, carriesMarkerE e2 = false)
  ∧ (∀ e ∈ elemsF f, e.id = i → carriesMarkerE e = true)
  ∧ i ∉ topIdsF f

/-- The invariant-preservation core of the rewrite loop: processing one marked
identity keeps identities unique and bounded, removes every carrier with that
identity, creates no new carrier, and leaves every surviving old-identity
element's carrier status derivable from its original. -/
theorem processF_master (sz : ℚ) (i : Nat) (f : DForest) (n : Nat)
    (hg : GoodF i f n) :
    n ≤ (processF sz i f n).2.1
    ∧ (∀ j ∈ elemIdsF (processF sz i f n).1,
        j ∈ elemIdsF f ∨ (n ≤ j ∧ j < (processF sz i f n).2.1))
    ∧ (elemIdsF (processF sz i f n).1).Nodup
    ∧ (∀ e ∈ elemsF (processF sz i f n).1, carriesMarkerE e = true →
        e ∈ elemsF f ∧ e.id ≠ i)
    ∧ (∀ e ∈ elemsF (processF sz i f n).1, e.id < n →
        ∃ e2 ∈ elemsF f, e2.id = e.id ∧
          (carriesMarkerE e2 = true → carriesMarkerE e = true)) := by
  obtain ⟨huniq, hbelow, hnest, hid, htop⟩ := hg
  induction f generalizing n with
  | nil =>
      exact ⟨le_refl n, by simp [processF, elemIdsF, elemsF],
        by simp [processF, elemIdsF, elemsF],
        by simp [processF, elemsF], by simp [processF, elemsF]⟩
  | textCons s r ih =>
      have hh : elemIdsF (DForest.textCons s r) = elemIdsF r := by
        simp [elemIdsF, elemsF]
      have hh2 : elemsF (DForest.textCons s r) = elemsF r := rfl
      rw [hh] at huniq hbelow
      rw [hh2] at hnest hid
      have htop2 : i ∉ topIdsF r := by simpa [topIdsF] using htop
      obtain ⟨c1, c2, c3, c4, c5⟩ := ih n huniq hbelow hnest hid htop2
      refine ⟨by simpa [processF] using c1, ?_, ?_, ?_, ?_⟩
      · intro j hj
        rw [hh]
        have := c2 j (by simpa [processF, elemIdsF, elemsF] using hj)
        simpa [processF] using this
      · simpa [processF, elemIdsF, elemsF] using c3
      · intro e he hc
        have := c4 e (by simpa [processF, elemsF] using he) hc
        exact ⟨this.1, this.2⟩
      · intro e he hlt
        exact c5 e (by simpa [processF, elemsF] using he) hlt
  | elemCons id t a st ch r ih1 ih2 =>
      rw [elemIdsF_elemCons] at huniq hbelow
      obtain ⟨hid_notin, hu2⟩ := List.nodup_cons.mp huniq
      obtain ⟨hu_ch, hu_r, hdisj⟩ := List.nodup_append.mp hu2
      have hb_id : id < n := hbelow id (by simp)
      have hb_ch : ∀ j ∈ elemIdsF ch, j < n := fun j hj => hbelow j (by simp [hj])
      have hb_r : ∀ j ∈ elemIdsF r, j < n := fun j hj => hbelow j (by simp [hj])
      have hnest_ch : ∀ e ∈ elemsF ch, carriesMarkerE e = true →
          ∀ e2 ∈ elemsF e.children, carriesMarkerE e2 = false :=
        fun e he => hnest e (by rw [elemsF_elemCons]; simp [he])
      have hnest_r : ∀ e ∈ elemsF r, carriesMarkerE e = true →
          ∀ e2 ∈ elemsF e.children, carriesMarkerE e2 = false :=
        fun e he => hnest e (by rw [elemsF_elemCons]; simp [he])
      have hid_ch : ∀ e ∈ elemsF ch, e.id = i → carriesMarkerE e = true :=
        fun e he => hid e (by rw [elemsF_elemCons]; simp [he])
      have hid_r : ∀ e ∈ elemsF r, e.id = i → carriesMarkerE e = true :=
        fun e he => hid e (by rw [elemsF_elemCons]; simp [he])
      have hti : ¬ i = id := fun hc => htop (by simp [topIdsF, hc])
      have htr : i ∉ topIdsF r := fun hc => htop (by simp [topIdsF, hc])
      cases hsplit : splitF i ch with
      | none =>
          have htc := splitF_none_top i ch hsplit
          obtain ⟨c1, c2, c3, c4, c5⟩ := ih1 n hu_ch hb_ch hnest_ch hid_ch htc
          have hb_r2 : ∀ j ∈ elemIdsF r, j < (processF sz i ch n).2.1 :=
            fun j hj => lt_of_lt_of_le (hb_r j hj) c1
          obtain ⟨d1, d2, d3, d4, d5⟩ :=
            ih2 (processF sz i ch n).2.1 hu_r hb_r2 hnest_r hid_r htr
          simp only [processF, hsplit]
          refine ⟨le_trans c1 d1, ?_, ?_, ?_, ?_⟩
          · intro j hj
            rw [elemIdsF_elemCons] at hj ⊢
            simp only [List.mem_cons, List.mem_append] at hj ⊢
            rcases hj with hj | hj | hj
            · exact Or.inl (Or.inl hj)
            · rcases c2 j hj with h | h
              · exact Or.inl (Or.inr (Or.inl h))
              · exact Or.inr ⟨h.1, lt_of_lt_of_le h.2 d1⟩
            · rcases d2 j hj with h | h
              · exact Or.inl (Or.inr (Or.inr h))
              · exact Or.inr ⟨le_trans c1 h.1, h.2⟩
          · rw [elemIdsF_elemCons]
            refine List.nodup_cons.mpr ⟨?_, List.nodup_append.mpr ⟨c3, d3, ?_⟩⟩
            · intro hc
              rcases List.mem_append.mp hc with h | h
              · rcases c2 id h with h2 | h2
                · exact hid_notin (List.mem_append.mpr (Or.inl h2))
                · omega
              · rcases d2 id h with h2 | h2
                · exact hid_notin (List.mem_append.mpr (Or.inr h2))
                · have := le_trans c1 h2.1
                  omega
            · intro j hjc hjr
              rcases c2 j hjc with h1 | h1 <;> rcases d2 j hjr with h2 | h2
              · exact hdisj h1 h2
              · have := hb_ch j h1
                have := le_trans c1 h2.1
                omega
              · have := hb_r j h2
                omega
              · omega
          · intro e he hc
            rw [elemsF_elemCons] at he
            simp only [List.mem_cons, List.mem_append] at he
            rcases he with he | he | he
            · -- the parent element itself, with processed children
              have hcr : carriesMarkerE (⟨id, t, a, st, ch⟩ : ENode) = true := by
                rw [he] at hc
                exact hc
              have hchclean : ∀ e2 ∈ elemsF ch, carriesMarkerE e2 = false :=
                hnest ⟨id, t, a, st, ch⟩ (by rw [elemsF_elemCons]; simp) hcr
              have habs : i ∉ elemIdsF ch := by
                rw [mem_elemIdsF]
                rintro ⟨e2, he2, hide2⟩
                have := hid_ch e2 he2 hide2
                rw [hchclean e2 he2] at this
                exact absurd this (by simp)
              rw [processF_absent sz i ch n habs] at he
              refine ⟨by rw [elemsF_elemCons]; simp [he], ?_⟩
              rw [he]
              exact fun hc2 => hti hc2.symm
            · obtain ⟨h1, h2⟩ := c4 e he hc
              exact ⟨by rw [elemsF_elemCons]; simp [h1], h2⟩
            · obtain ⟨h1, h2⟩ := d4 e he hc
              exact ⟨by rw [elemsF_elemCons]; simp [h1], h2⟩
          · intro e he hlt
            rw [elemsF_elemCons] at he
            simp only [List.mem_cons, List.mem_append] at he
            rcases he with he | he | he
            · refine ⟨⟨id, t, a, st, ch⟩, by rw [elemsF_elemCons]; simp, by rw [he], ?_⟩
              intro hc
              rw [he]
              exact hc
            · obtain ⟨e2, he2, h1, h2⟩ := c5 e he hlt
              exact ⟨e2, by rw [elemsF_elemCons]; simp [he2], h1, h2⟩
            · obtain ⟨e2, he2, h1, h2⟩ :=
                d5 e he (lt_of_lt_of_le hlt c1)
              exact ⟨e2, by rw [elemsF_elemCons]; simp [he2], h1, h2⟩
      | some x =>
          obtain ⟨pre, el, post⟩ := x
          obtain ⟨elid, elt, ela, elst, elch⟩ := el
          obtain ⟨hshape, helid⟩ := splitF_some_shape i ch (pre, ⟨elid, elt, ela, elst, elch⟩, post) hsplit
          simp only at hshape helid
          subst helid
          have hch_ids : elemIdsF ch
              = elemIdsF pre ++ (elid :: (elemIdsF elch ++ elemIdsF post)) := by
            rw [hshape, elemIdsF_appF, elemIdsF_elemCons]
          have hch_elems : elemsF ch
              = elemsF pre ++ ((⟨elid, elt, ela, elst, elch⟩ : ENode)
                  :: (elemsF elch ++ elemsF post)) := by
            rw [hshape, elemsF_appF, elemsF_elemCons]
          have helel : (⟨elid, elt, ela, elst, elch⟩ : ENode) ∈ elemsF ch := by
            rw [hch_elems]; simp
          have hcarrier_el : carriesMarkerE ⟨elid, elt, ela, elst, elch⟩ = true :=
            hid_ch _ helel rfl
          have hroot_nc : carriesMarkerE (⟨id, t, a, st, ch⟩ : ENode) = false := by
            cases hb : carriesMarkerE (⟨id, t, a, st, ch⟩ : ENode) with
            | false => rfl
            | true =>
                have := hnest ⟨id, t, a, st, ch⟩ (by rw [elemsF_elemCons]; simp) hb
                  ⟨elid, elt, ela, elst, elch⟩ helel
                rw [hcarrier_el] at this
                exact absurd this (by simp)
          have helch_nc : ∀ e2 ∈ elemsF elch, carriesMarkerE e2 = false :=
            hnest_ch ⟨elid, elt, ela, elst, elch⟩ helel hcarrier_el
          have hclean_nc : ∀ e ∈ elemsF (cleanF elch), carriesMarkerE e = false := by
            intro e he
            rw [elemsF_cleanF] at he
            obtain ⟨e0, he0, rfl⟩ := List.mem_map.mp he
            rw [Bool.eq_false_iff]
            intro hc
            have h1 := carriesMarkerE_cleanE_mono e0 hc
            rw [helch_nc e0 he0] at h1
            exact absurd h1 (by simp)
          have hu_ch2 := hu_ch
          rw [hch_ids] at hu_ch2
          obtain ⟨hu_pre, hu_rest, hdisj2⟩ := List.nodup_append.mp hu_ch2
          obtain ⟨hi_notin, hu_rest2⟩ := List.nodup_cons.mp hu_rest
          obtain ⟨hu_elch, hu_post, hdisj3⟩ := List.nodup_append.mp hu_rest2
          have hipre : elid ∉ elemIdsF pre := fun hc => hdisj2 hc (by simp)
          have hielch : elid ∉ elemIdsF elch := fun hc => hi_notin (by simp [hc])
          have hipost : elid ∉ elemIdsF post := fun hc => hi_notin (by simp [hc])
          have hmem_pre_f : ∀ j ∈ elemIdsF pre, j ∈ elemIdsF ch := by
            intro j hj; rw [hch_ids]; simp [hj]
          have hmem_elch_f : ∀ j ∈ elemIdsF elch, j ∈ elemIdsF ch := by
            intro j hj; rw [hch_ids]; simp [hj]
          have hmem_post_f : ∀ j ∈ elemIdsF post, j ∈ elemIdsF ch := by
            intro j hj; rw [hch_ids]; simp [hj]
          have hmem_pre_e : ∀ e ∈ elemsF pre, e ∈ elemsF ch := by
            intro e he; rw [hch_elems]; simp [he]
          have hmem_elch_e : ∀ e ∈ elemsF elch, e ∈ elemsF ch := by
            intro e he; rw [hch_elems]; simp [he]
          have hmem_post_e : ∀ e ∈ elemsF post, e ∈ elemsF ch := by
            intro e he; rw [hch_elems]; simp [he]
          have hid_pre : ∀ e ∈ elemsF pre, e.id ≠ elid := by
            intro e he hc
            exact hipre (hc ▸ (mem_elemIdsF pre e.id).mpr ⟨e, he, rfl⟩)
          have hid_post : ∀ e ∈ elemsF post, e.id ≠ elid := by
            intro e he hc
            exact hipost (hc ▸ (mem_elemIdsF post e.id).mpr ⟨e, he, rfl⟩)
          by_cases hguard : (t == "SPAN" && styleTruthy (styleGet st "font-size")
              && (forestLen ch == 1)) = true
          · -- parent-reuse branch
            obtain ⟨d1, d2, d3, d4, d5⟩ := ih2 n hu_r hb_r hnest_r hid_r htr
            simp only [processF, hsplit, hguard, if_true]
            have hch'_ids : elemIdsF (appF pre (appF (cleanF elch) post))
                = elemIdsF pre ++ (elemIdsF elch ++ elemIdsF post) := by
              rw [elemIdsF_appF, elemIdsF_appF, elemIdsF_cleanF]
            have hch'_elems : elemsF (appF pre (appF (cleanF elch) post))
                = elemsF pre ++ ((elemsF elch).map cleanE ++ elemsF post) := by
              rw [elemsF_appF, elemsF_appF, elemsF_cleanF]
            refine ⟨d1, ?_, ?_, ?_, ?_⟩
            · intro j hj
              rw [elemIdsF_elemCons] at hj ⊢
              simp only [hch'_ids, List.mem_cons, List.mem_append] at hj ⊢
              rcases hj with hj | (hj | hj | hj) | hj
              · exact Or.inl (Or.inl hj)
              · exact Or.inl (Or.inr (Or.inl (hmem_pre_f j hj)))
              · exact Or.inl (Or.inr (Or.inl (hmem_elch_f j hj)))
              · exact Or.inl (Or.inr (Or.inl (hmem_post_f j hj)))
              · rcases d2 j hj with h | h
                · exact Or.inl (Or.inr (Or.inr h))
                · exact Or.inr h
            · rw [elemIdsF_elemCons]
              refine List.nodup_cons.mpr ⟨?_, List.nodup_append.mpr ⟨?_, d3, ?_⟩⟩
              · rw [hch'_ids]
                intro hc
                simp only [List.mem_append] at hc
                rcases hc with (hc | hc | hc) | hc
                · exact hid_notin (List.mem_append.mpr (Or.inl (hmem_pre_f id hc)))
                · exact hid_notin (List.mem_append.mpr (Or.inl (hmem_elch_f id hc)))
                · exact hid_notin (List.mem_append.mpr (Or.inl (hmem_post_f id hc)))
                · rcases d2 id hc with h | h
                  · exact hid_notin (List.mem_append.mpr (Or.inr h))
                  · omega
              · rw [hch'_ids]
                refine List.nodup_append.mpr ⟨hu_pre, List.nodup_append.mpr
                  ⟨hu_elch, hu_post, hdisj3⟩, ?_⟩
                intro j hj hj2
                rcases List.mem_append.mp hj2 with h | h
                · exact hdisj2 hj (by simp [h])
                · exact hdisj2 hj (by simp [h])
              · rw [hch'_ids]
                intro j hj hj2
                have hjch : j ∈ elemIdsF ch := by
                  simp only [List.mem_append] at hj
                  rcases hj with (h | h | h)
                  · exact hmem_pre_f j h
                  · exact hmem_elch_f j h
                  · exact hmem_post_f j h
                rcases d2 j hj2 with h | h
                · exact hdisj hjch h
                · have := hb_ch j hjch
                  omega
            · intro e he hc
              rw [elemsF_elemCons] at he
              simp only [hch'_elems, List.mem_cons, List.mem_append] at he
              rcases he with he | (he | he | he) | he
              · -- the rewritten parent span
                subst he
                have hA : (attrGet a "face" == some markerFont) = false := by
                  cases hx : (attrGet a "face" == some markerFont)
                  · rfl
                  · have h := hroot_nc
                    simp only [carriesMarkerE, hx, Bool.true_or] at h
                    exact absurd h (by simp)
                have hS : styleHasMarker st = false := by
                  cases hx : styleHasMarker st
                  · rfl
                  · have h := hroot_nc
                    simp only [carriesMarkerE, hx, Bool.or_true] at h
                    exact absurd h (by simp)
                simp only [carriesMarkerE, Bool.or_eq_true, hA] at hc
                rcases hc with hc | hc
                · exact absurd hc (by simp)
                · have := styleHasMarker_styleSet_px_mono st "font-size" sz hc
                  rw [hS] at this
                  exact absurd this (by simp)
              · refine ⟨by rw [elemsF_elemCons]; simp [hmem_pre_e e he], hid_pre e he⟩
              · obtain ⟨e0, he0, rfl⟩ := List.mem_map.mp he
                rw [hclean_nc (cleanE e0) (by rw [elemsF_cleanF]; exact List.mem_map.mpr ⟨e0, he0, rfl⟩)] at hc
                exact absurd hc (by simp)
              · refine ⟨by rw [elemsF_elemCons]; simp [hmem_post_e e he], hid_post e he⟩
              · obtain ⟨h1, h2⟩ := d4 e he hc
                exact ⟨by rw [elemsF_elemCons]; simp [h1], h2⟩
            · intro e he hlt
              rw [elemsF_elemCons] at he
              simp only [hch'_elems, List.mem_cons, List.mem_append] at he
              rcases he with he | (he | he | he) | he
              · refine ⟨⟨id, t, a, st, ch⟩, by rw [elemsF_elemCons]; simp,
                  by rw [he], ?_⟩
                intro hc
                rw [hroot_nc] at hc
                exact absurd hc (by simp)
              · exact ⟨e, by rw [elemsF_elemCons]; simp [hmem_pre_e e he], rfl,
                  fun hc => hc⟩
              · obtain ⟨e0, he0, rfl⟩ := List.mem_map.mp he
                refine ⟨e0, by rw [elemsF_elemCons]; simp [hmem_elch_e e0 he0], rfl, ?_⟩
                intro hc
                rw [helch_nc e0 he0] at hc
                exact absurd hc (by simp)
              · exact ⟨e, by rw [elemsF_elemCons]; simp [hmem_post_e e he], rfl,
                  fun hc => hc⟩
              · obtain ⟨e2, he2, h1, h2⟩ := d5 e he hlt
                exact ⟨e2, by rw [elemsF_elemCons]; simp [he2], h1, h2⟩
          · -- standard branch: fresh wrapper span
            have hw : n ≤ (freshCopyF (cleanF elch) n).2 := freshCopyF_mono _ n
            have copyb := freshCopyF_ids_bounds (cleanF elch) n
            have copynd := freshCopyF_ids_nodup (cleanF elch) n
            have hcopies_nc : ∀ e ∈ elemsF (freshCopyF (cleanF elch) n).1,
                carriesMarkerE e = false := by
              intro e he
              obtain ⟨e2, he2, ht2, ha2, hs2⟩ := freshCopyF_elems (cleanF elch) n e he
              rw [← carriesMarkerE_fields e e2 ha2 hs2]
              exact hclean_nc e2 he2
            have hb_r3 : ∀ j ∈ elemIdsF r, j < (freshCopyF (cleanF elch) n).2 + 1 := by
              intro j hj
              have := hb_r j hj
              omega
            obtain ⟨d1, d2, d3, d4, d5⟩ :=
              ih2 ((freshCopyF (cleanF elch) n).2 + 1) hu_r hb_r3 hnest_r hid_r htr
            simp only [processF, hsplit, hguard, Bool.false_eq_true, if_false]
            have hch'_ids : ∀ copies : DForest, ∀ w : Nat,
                elemIdsF (appF pre (.elemCons w "SPAN" [] [("font-size", .px sz)] copies post))
                = elemIdsF pre ++ (w :: (elemIdsF copies ++ elemIdsF post)) := by
              intro copies w
              rw [elemIdsF_appF, elemIdsF_elemCons]
            have hch'_elems : ∀ copies : DForest, ∀ w : Nat,
                elemsF (appF pre (.elemCons w "SPAN" [] [("font-size", .px sz)] copies post))
                = elemsF pre ++ ((⟨w, "SPAN", [], [("font-size", .px sz)], copies⟩ : ENode)
                    :: (elemsF copies ++ elemsF post)) := by
              intro copies w
              rw [elemsF_appF, elemsF_elemCons]
            refine ⟨by omega, ?_, ?_, ?_, ?_⟩
            · intro j hj
              rw [elemIdsF_elemCons] at hj ⊢
              simp only [hch'_ids, List.mem_cons, List.mem_append] at hj ⊢
              rcases hj with hj | (hj | hj | hj | hj) | hj
              · exact Or.inl (Or.inl hj)
              · exact Or.inl (Or.inr (Or.inl (hmem_pre_f j hj)))
              · subst hj
                exact Or.inr ⟨hw, by omega⟩
              · obtain ⟨hb1, hb2⟩ := copyb j hj
                exact Or.inr ⟨hb1, by omega⟩
              · exact Or.inl (Or.inr (Or.inl (hmem_post_f j hj)))
              · rcases d2 j hj with h | h
                · exact Or.inl (Or.inr (Or.inr h))
                · exact Or.inr ⟨by omega, h.2⟩
            · rw [elemIdsF_elemCons]
              refine List.nodup_cons.mpr ⟨?_, List.nodup_append.mpr ⟨?_, d3, ?_⟩⟩
              · rw [hch'_ids]
                intro hc
                simp only [List.mem_cons, List.mem_append] at hc
                rcases hc with (hc | hc | hc | hc) | hc
                · exact hid_notin (List.mem_append.mpr (Or.inl (hmem_pre_f id hc)))
                · subst hc
                  omega
                · have := (copyb id hc).1
                  omega
                · exact hid_notin (List.mem_append.mpr (Or.inl (hmem_post_f id hc)))
                · rcases d2 id hc with h | h
                  · exact hid_notin (List.mem_append.mpr (Or.inr h))
                  · omega
              · rw [hch'_ids]
                refine List.nodup_append.mpr ⟨hu_pre, ?_, ?_⟩
                · refine List.nodup_cons.mpr ⟨?_, List.nodup_append.mpr
                    ⟨copynd, hu_post, ?_⟩⟩
                  · intro hc
                    rcases List.mem_append.mp hc with h | h
                    · have := (copyb _ h).2
                      omega
                    · have := hb_ch _ (hmem_post_f _ h)
                      omega
                  · intro j hj hj2
                    have := (copyb j hj).1
                    have := hb_ch j (hmem_post_f j hj2)
                    omega
                · intro j hj hj2
                  have hjn : j < n := hb_ch j (hmem_pre_f j hj)
                  simp only [List.mem_cons, List.mem_append] at hj2
                  rcases hj2 with h | h | h
                  · omega
                  · have := (copyb j h).1
                    omega
                  · exact hdisj2 hj (by simp [h])
              · rw [hch'_ids]
                intro j hj hj2
                simp only [List.mem_cons, List.mem_append] at hj
                have hjb : j ∈ elemIdsF ch ∨ (n ≤ j ∧ j ≤ (freshCopyF (cleanF elch) n).2) := by
                  rcases hj with h | h | h | h
                  · exact Or.inl (hmem_pre_f j h)
                  · exact Or.inr ⟨by omega, by omega⟩
                  · obtain ⟨b1, b2⟩ := copyb j h
                    exact Or.inr ⟨b1, by omega⟩
                  · exact Or.inl (hmem_post_f j h)
                rcases d2 j hj2 with h2 | h2
                · rcases hjb with h1 | h1
                  · exact hdisj h1 h2
                  · have := hb_r j h2
                    omega
                · rcases hjb with h1 | h1
                  · have := hb_ch j h1
                    omega
                  · omega
            · intro e he hc
              rw [elemsF_elemCons] at he
              simp only [hch'_elems, List.mem_cons, List.mem_append] at he
              rcases he with he | (he | he | he | he) | he
              · subst he
                have hcc : carriesMarkerE (⟨id, t, a, st, ch⟩ : ENode) = true := hc
                rw [hroot_nc] at hcc
                exact absurd hcc (by simp)
              · exact ⟨by rw [elemsF_elemCons]; simp [hmem_pre_e e he], hid_pre e he⟩
              · subst he
                rw [carrier_new_span] at hc
                exact absurd hc (by simp)
              · rw [hcopies_nc e he] at hc
                exact absurd hc (by simp)
              · exact ⟨by rw [elemsF_elemCons]; simp [hmem_post_e e he], hid_post e he⟩
              · obtain ⟨h1, h2⟩ := d4 e he hc
                exact ⟨by rw [elemsF_elemCons]; simp [h1], h2⟩
            · intro e he hlt
              rw [elemsF_elemCons] at he
              simp only [hch'_elems, List.mem_cons, List.mem_append] at he
              rcases he with he | (he | he | he | he) | he
              · refine ⟨⟨id, t, a, st, ch⟩, by rw [elemsF_elemCons]; simp,
                  by rw [he], ?_⟩
                intro hcc
                rw [he]
                exact hcc
              · exact ⟨e, by rw [elemsF_elemCons]; simp [hmem_pre_e e he], rfl,
                  fun hcc => hcc⟩
              · exfalso
                rw [he] at hlt
                simp only at hlt
                omega
              · exfalso
                have : e.id ∈ elemIdsF (freshCopyF (cleanF elch) n).1 :=
                  (mem_elemIdsF _ e.id).mpr ⟨e, he, rfl⟩
                have := (copyb e.id this).1
                omega
              · exact ⟨e, by rw [elemsF_elemCons]; simp [hmem_post_e e he], rfl,
                  fun hcc => hcc⟩
              · obtain ⟨e2, he2, h1, h2⟩ := d5 e he (by omega)
                exact ⟨e2, by rw [elemsF_elemCons]; simp [he2], h1, h2⟩

theorem processF_topIds (sz : ℚ) (i : Nat) (f : DForest) (n : Nat) :
    topIdsF (processF sz i f n).1 = topIdsF f := by
  induction f generalizing n with
  | nil => rfl
  | textCons s r ih => simp [processF, topIdsF, ih n]
  | elemCons id t a st ch r ih1 ih2 =>
      cases hsplit : splitF i ch with
      | some x =>
          obtain ⟨pre, el, post⟩ := x
          by_cases hguard : (t == "SPAN" && styleTruthy (styleGet st "font-size")
              && (forestLen ch == 1)) = true
          · simp [processF, hsplit, hguard, topIdsF, ih2]
          · simp [processF, hsplit, hguard, topIdsF, ih2]
      | none =>
          simp [processF, hsplit, topIdsF, ih2]

/-- The whole-loop invariant: if every marker carrier's identity is in the
work list, the work list's identities all designate carriers, and the
well-formedness conditions hold, then after the loop no element carries the
marker. -/
theorem runMarkersF_no_marker (sz : ℚ) (ids : List Nat) (f : DForest) (n : Nat)
    (huniq : (elemIdsF f).Nodup)
    (hbelow : ∀ j ∈ elemIdsF f, j < n)
    (hnest : ∀ e ∈ elemsF f, carriesMarkerE e = true →
        ∀ e2 ∈ elemsF e.children, carriesMarkerE e2 = false)
    (hcarr : ∀ e ∈ elemsF f, carriesMarkerE e = true → e.id ∈ ids)
    (hids : ∀ j ∈ ids, ∀ e ∈ elemsF f, e.id = j → carriesMarkerE e = true)
    (hidb : ∀ j ∈ ids, j < n)
    (htop : ∀ j ∈ ids, j ∉ topIdsF f) :
    ∀ e ∈ elemsF (runMarkersF sz ids f n).1, carriesMarkerE e = false := by
  induction ids generalizing f n with
  | nil =>
      intro e he
      cases hb : carriesMarkerE e with
      | false => rfl
      | true => exact absurd (hcarr e he hb) (by simp)
  | cons i rest ih =>
      obtain ⟨c1, c2, c3, c4, c5⟩ := processF_master sz i f n
        ⟨huniq, hbelow, hnest, fun e he => hids i (by simp) e he, htop i (by simp)⟩
      have hn1 : (processF sz i f n).2.1
          ≤ (if (processF sz i f n).2.2.isEmpty then (processF sz i f n).2.1 + 1
             else (processF sz i f n).2.1) := by
        split <;> omega
      have hnext : ∀ e ∈ elemsF (runMarkersF sz (i :: rest) f n).1,
          e ∈ elemsF (runMarkersF sz rest (processF sz i f n).1
            (if (processF sz i f n).2.2.isEmpty then (processF sz i f n).2.1 + 1
             else (processF sz i f n).2.1)).1 := by
        intro e he
        simpa [runMarkersF] using he
      intro e he
      refine ih (processF sz i f n).1 _ c3 ?_ ?_ ?_ ?_ ?_ ?_ e (hnext e he)
      · intro j hj
        rcases c2 j hj with h | h
        · have := hbelow j h
          omega
        · omega
      · intro e2 he2 hc2
        exact hnest e2 (c4 e2 he2 hc2).1 hc2
      · intro e2 he2 hc2
        have h4 := c4 e2 he2 hc2
        have := hcarr e2 h4.1 hc2
        simp only [List.mem_cons] at this
        rcases this with h | h
        · exact absurd h h4.2
        · exact h
      · intro j hj e2 he2 hj2
        have hjn : j < n := hidb j (by simp [hj])
        obtain ⟨e3, he3, hid3, himp⟩ := c5 e2 he2 (by omega)
        exact himp (hids j (by simp [hj]) e3 he3 (by omega))
      · intro j hj
        have := hidb j (by simp [hj])
        omega
      · intro j hj
        rw [processF_topIds]
        exact htop j (by simp [hj])

/-- C1: after `setFontSize` returns, no element carrying the marker token
`cdk-marker-font` — neither as a `face` attribute nor inside an inline style —
remains anywhere in the container's subtree.  The hypotheses state the
contract of the native `fontName` marker-insertion step (§4.3 step 3 and §9 of
the design): the reserved token occurs only on the inserted marker elements,
which surface as `font[face]` or `span[style]` runs, are never nested inside
one another, and never tag the container itself; identities are unique and
below the fresh counter.  This covers every selection shape — single run,
multiple disjoint runs, and runs nested inside existing sized spans — and both
the service and the embedded component variant, which run the identical
query-and-rewrite loop. -/
theorem C1_no_marker_survives (sz : ℚ) (cid : Nat) (ctag : String)
    (cattrs : List (String × String)) (cstyle : List (String × StyleVal))
    (content : DForest) (n : Nat)
    (huniq : (elemIdsF (.elemCons cid ctag cattrs cstyle content .nil)).Nodup)
    (hbelow : ∀ j ∈ elemIdsF (.elemCons cid ctag cattrs cstyle content .nil), j < n)
    (hnest : ∀ e ∈ elemsF (.elemCons cid ctag cattrs cstyle content .nil),
        carriesMarkerE e = true → ∀ e2 ∈ elemsF e.children, carriesMarkerE e2 = false)
    (hwell : ∀ e ∈ elemsF content, carriesMarkerE e = true →
        isFontMarkerE e = true ∨ isSpanMarkerE e = true)
    (hcont : carriesMarkerE ⟨cid, ctag, cattrs, cstyle, content⟩ = false) :
    ∀ e ∈ elemsF (setFontSizeSurface sz cid ctag cattrs cstyle content n).1,
      carriesMarkerE e = false := by
  have hroot_elems : elemsF (.elemCons cid ctag cattrs cstyle content .nil)
      = (⟨cid, ctag, cattrs, cstyle, content⟩ : ENode) :: (elemsF content ++ []) :=
    rfl
  have hroot_ids : elemIdsF (.elemCons cid ctag cattrs cstyle content .nil)
      = cid :: (elemIdsF content ++ []) := by
    rw [elemIdsF_elemCons]
    rfl
  have hcid_notin : cid ∉ elemIdsF content := by
    rw [hroot_ids] at huniq
    have := (List.nodup_cons.mp huniq).1
    intro hc
    exact this (by simp [hc])
  have hinj : ∀ e ∈ elemsF (.elemCons cid ctag cattrs cstyle content .nil),
      ∀ e2 ∈ elemsF (.elemCons cid ctag cattrs cstyle content .nil),
        e.id = e2.id → e = e2 := by
    intro e he e2 he2 hq
    have huniq2 : ((elemsF (.elemCons cid ctag cattrs cstyle content
        .nil)).map ENode.id).Nodup := huniq
    exact List.inj_on_of_nodup_map huniq2 he he2 hq
  have hlift : ∀ e ∈ elemsF content,
      e ∈ elemsF (.elemCons cid ctag cattrs cstyle content .nil) := by
    intro e he
    rw [hroot_elems]
    simp [he]
  intro e he
  refine runMarkersF_no_marker sz
    (collectF isFontMarkerE content ++ collectF isSpanMarkerE content)
    (.elemCons cid ctag cattrs cstyle content .nil) n huniq hbelow hnest
    ?_ ?_ ?_ ?_ e (by simpa [setFontSizeSurface] using he)
  · intro e2 he2 hc2
    rw [hroot_elems] at he2
    simp only [List.mem_cons, List.mem_append] at he2
    rcases he2 with he2 | he2 | he2
    · rw [he2, hcont] at hc2
      exact absurd hc2 (by simp)
    · rcases hwell e2 he2 hc2 with h | h
      · exact List.mem_append.mpr (Or.inl (collectF_complete _ content e2 he2 h))
      · exact List.mem_append.mpr (Or.inr (collectF_complete _ content e2 he2 h))
    · exact absurd he2 (by simp)
  · intro j hj e2 he2 hj2
    rcases List.mem_append.mp hj with h | h
    · obtain ⟨e0, he0, hp0, hid0⟩ := collectF_sound _ content j h
      have : e2 = e0 := hinj e2 he2 e0 (hlift e0 he0) (by rw [hj2, hid0])
      rw [this]
      exact carrier_of_fontMarker e0 hp0
    · obtain ⟨e0, he0, hp0, hid0⟩ := collectF_sound _ content j h
      have : e2 = e0 := hinj e2 he2 e0 (hlift e0 he0) (by rw [hj2, hid0])
      rw [this]
      exact carrier_of_spanMarker e0 hp0
  · intro j hj
    have hjc : j ∈ elemIdsF content := by
      rcases List.mem_append.mp hj with h | h <;>
      · obtain ⟨e0, he0, hp0, hid0⟩ := collectF_sound _ content j h
        exact (mem_elemIdsF content j).mpr ⟨e0, he0, hid0⟩
    exact hbelow j (by rw [hroot_ids]; simp [hjc])
  · intro j hj
    have hjc : j ∈ elemIdsF content := by
      rcases List.mem_append.mp hj with h | h <;>
      · obtain ⟨e0, he0, hp0, hid0⟩ := collectF_sound _ content j h
        exact (mem_elemIdsF content j).mpr ⟨e0, he0, hid0⟩
    have : j ≠ cid := fun hc => hcid_notin (hc ▸ hjc)
    simp [topIdsF, this]

/-- C1 witness: a surface holding both marker forms — a span-form marker and a
font-form marker — is rewritten to a marker-free tree. -/
theorem C1_no_marker_survives_witness :
    ((elemsF (setFontSizeSurface 18 0 "DIV" [] []
        (.elemCons 1 "SPAN" [] [("font-family", .raw "cdk-marker-font")]
          (.textCons "a" .nil)
          (.elemCons 2 "FONT" [("face", "cdk-marker-font")] []
            (.textCons "b" .nil) .nil)) 10).1).all
      fun e => !(carriesMarkerE e)) = true := by
  rw [List.all_eq_true]
  intro e he
  have := C1_no_marker_survives 18 0 "DIV" [] []
    (.elemCons 1 "SPAN" [] [("font-family", .raw "cdk-marker-font")]
      (.textCons "a" .nil)
      (.elemCons 2 "FONT" [("face", "cdk-marker-font")] []
        (.textCons "b" .nil) .nil)) 10
    (by decide) (by decide) (by decide) (by decide) (by decide) e he
  simp [this]

theorem topIdsF_appF (a b : DForest) :
    topIdsF (appF a b) = topIdsF a ++ topIdsF b := by
  induction a with
  | nil => rfl
  | textCons s r ih => simp [appF, topIdsF, ih]
  | elemCons i t aa st ch r ih1 ih2 => simp [appF, topIdsF, ih2]

theorem collect_pred_nil (p : ENode → Bool)
    (hp : ∀ e, p e = true → carriesMarkerE e = true) (f : DForest)
    (h : ∀ e ∈ elemsF f, carriesMarkerE e = false) : collectF p f = [] := by
  refine collectF_nil_of p f ?_
  intro e he
  cases hx : p e with
  | false => rfl
  | true =>
      have := hp e hx
      rw [h e he] at this
      exact absurd this (by simp)

/-- C2: applying `setFontSize` twice in succession to the same run does not
nest wrappers.  First invocation (`s1`): the native `fontName` step has
wrapped the run `cs` in a marker element (identity `m1`); the rewrite takes
the standard path (the container is a `DIV`, not a size-carrying span) and
replaces the marker with one fresh wrapper span carrying `s1`.  Second
invocation (`s2`): the marker (`m2`) now wraps the wrapper's whole content, so
it is the wrapper's sole child and the parent-reuse path — taken exactly when
the marked element's parent is a `SPAN` that declares a `font-size` and has
the marked element as its only child — overwrites the existing wrapper's size
with `s2` and unwraps the marker: the result is the *same* wrapper (same
identity, pushed to `newSpans` in place of a fresh span) carrying `s2`, with
no new wrapper inside or around it. -/
theorem C2_repeat_resize_single_wrapper (s1 s2 : ℚ) (cid : Nat)
    (cattrs : List (String × String)) (cstyle : List (String × StyleVal))
    (pre post cs : DForest) (m1 n : Nat)
    (hpre : ∀ e ∈ elemsF pre, carriesMarkerE e = false)
    (hpost : ∀ e ∈ elemsF post, carriesMarkerE e = false)
    (hcs : ∀ e ∈ elemsF cs, carriesMarkerE e = false)
    (hm1pre : m1 ∉ elemIdsF pre)
    (hbpre : ∀ j ∈ elemIdsF pre, j < n)
    (hbpost : ∀ j ∈ elemIdsF post, j < n) :
    setFontSizeSurface s1 cid "DIV" cattrs cstyle
        (appF pre (.elemCons m1 "FONT" [("face", markerFont)] [] cs post)) n
      = (.elemCons cid "DIV" cattrs cstyle
          (appF pre (.elemCons (freshCopyF (cleanF cs) n).2 "SPAN" []
            [("font-size", .px s1)] (freshCopyF (cleanF cs) n).1 post)) .nil,
         (freshCopyF (cleanF cs) n).2 + 1, [(freshCopyF (cleanF cs) n).2])
    ∧ setFontSizeSurface s2 cid "DIV" cattrs cstyle
        (appF pre (.elemCons (freshCopyF (cleanF cs) n).2 "SPAN" []
          [("font-size", .px s1)]
          (.elemCons ((freshCopyF (cleanF cs) n).2 + 1) "FONT"
            [("face", markerFont)] [] (freshCopyF (cleanF cs) n).1 .nil)
          post)) ((freshCopyF (cleanF cs) n).2 + 2)
      = (.elemCons cid "DIV" cattrs cstyle
          (appF pre (.elemCons (freshCopyF (cleanF cs) n).2 "SPAN" []
            [("font-size", .px s2)] (cleanF (freshCopyF (cleanF cs) n).1) post)) .nil,
         (freshCopyF (cleanF cs) n).2 + 2, [(freshCopyF (cleanF cs) n).2]) := by
  have hnw : n ≤ (freshCopyF (cleanF cs) n).2 := freshCopyF_mono _ n
  have hclean_cs : ∀ e ∈ elemsF (cleanF cs), carriesMarkerE e = false := by
    intro e he
    rw [elemsF_cleanF] at he
    obtain ⟨e0, he0, rfl⟩ := List.mem_map.mp he
    rw [Bool.eq_false_iff]
    intro hc
    have h1 := carriesMarkerE_cleanE_mono e0 hc
    rw [hcs e0 he0] at h1
    exact absurd h1 (by simp)
  have hcopy_cs : ∀ e ∈ elemsF (freshCopyF (cleanF cs) n).1,
      carriesMarkerE e = false := by
    intro e he
    obtain ⟨e2, he2, ht2, ha2, hs2⟩ := freshCopyF_elems (cleanF cs) n e he
    rw [← carriesMarkerE_fields e e2 ha2 hs2]
    exact hclean_cs e2 he2
  constructor
  · -- first invocation
    have hfont1 : collectF isFontMarkerE
        (appF pre (.elemCons m1 "FONT" [("face", markerFont)] [] cs post)) = [m1] := by
      rw [collectF_appF, collect_pred_nil _ carrier_of_fontMarker pre hpre]
      simp only [collectF]
      rw [collect_pred_nil _ carrier_of_fontMarker cs hcs,
        collect_pred_nil _ carrier_of_fontMarker post hpost]
      simp [isFontMarkerE, attrGet]
    have hspan1 : collectF isSpanMarkerE
        (appF pre (.elemCons m1 "FONT" [("face", markerFont)] [] cs post)) = [] := by
      rw [collectF_appF, collect_pred_nil _ carrier_of_spanMarker pre hpre]
      simp only [collectF]
      rw [collect_pred_nil _ carrier_of_spanMarker cs hcs,
        collect_pred_nil _ carrier_of_spanMarker post hpost]
      simp [isSpanMarkerE]
    have hsplit1 : splitF m1
        (appF pre (.elemCons m1 "FONT" [("face", markerFont)] [] cs post))
        = some (pre, ⟨m1, "FONT", [("face", markerFont)], [], cs⟩, post) := by
      rw [splitF_appF_left m1 pre _
        (fun j hj hji => hm1pre (hji ▸ topIdsF_sub pre j hj))]
      rw [splitF_here]
      simp [appF_nil]
    have hguard1 : (("DIV" == "SPAN") && styleTruthy (styleGet cstyle "font-size")
        && (forestLen (appF pre (.elemCons m1 "FONT" [("face", markerFont)] [] cs post))
            == 1)) = false := by
      simp
    simp only [setFontSizeSurface, hfont1, hspan1, List.append_nil]
    simp only [runMarkersF, processF, hsplit1, hguard1, Bool.false_eq_true, if_false]
    simp
  · -- second invocation
    have hfont2 : collectF isFontMarkerE
        (appF pre (.elemCons (freshCopyF (cleanF cs) n).2 "SPAN" []
          [("font-size", .px s1)]
          (.elemCons ((freshCopyF (cleanF cs) n).2 + 1) "FONT"
            [("face", markerFont)] [] (freshCopyF (cleanF cs) n).1 .nil)
          post)) = [(freshCopyF (cleanF cs) n).2 + 1] := by
      rw [collectF_appF, collect_pred_nil _ carrier_of_fontMarker pre hpre]
      simp only [collectF]
      rw [collect_pred_nil _ carrier_of_fontMarker _ hcopy_cs,
        collect_pred_nil _ carrier_of_fontMarker post hpost]
      simp [isFontMarkerE, isSpanMarkerE, attrGet]
    have hspan2 : collectF isSpanMarkerE
        (appF pre (.elemCons (freshCopyF (cleanF cs) n).2 "SPAN" []
          [("font-size", .px s1)]
          (.elemCons ((freshCopyF (cleanF cs) n).2 + 1) "FONT"
            [("face", markerFont)] [] (freshCopyF (cleanF cs) n).1 .nil)
          post)) = [] := by
      rw [collectF_appF, collect_pred_nil _ carrier_of_spanMarker pre hpre]
      simp only [collectF]
      rw [collect_pred_nil _ carrier_of_spanMarker _ hcopy_cs,
        collect_pred_nil _ carrier_of_spanMarker post hpost]
      simp [isSpanMarkerE, styleHasMarker, valHasMarker]
    have hsplit2 : splitF ((freshCopyF (cleanF cs) n).2 + 1)
        (appF pre (.elemCons (freshCopyF (cleanF cs) n).2 "SPAN" []
          [("font-size", .px s1)]
          (.elemCons ((freshCopyF (cleanF cs) n).2 + 1) "FONT"
            [("face", markerFont)] [] (freshCopyF (cleanF cs) n).1 .nil)
          post)) = none := by
      refine splitF_none_of _ _ ?_
      intro j hj
      rw [topIdsF_appF] at hj
      simp only [topIdsF, List.mem_append, List.mem_cons] at hj
      rcases hj with hj | hj | hj
      · have := hbpre j (topIdsF_sub pre j hj)
        omega
      · omega
      · have := hbpost j (topIdsF_sub post j hj)
        omega
    have habs_pre : ((freshCopyF (cleanF cs) n).2 + 1) ∉ elemIdsF pre := by
      intro hc
      have := hbpre _ hc
      omega
    have habs_post : ((freshCopyF (cleanF cs) n).2 + 1) ∉ elemIdsF post := by
      intro hc
      have := hbpost _ hc
      omega
    have hguardw : (("SPAN" == "SPAN")
        && styleTruthy (styleGet [("font-size", StyleVal.px s1)] "font-size")
        && (forestLen (.elemCons ((freshCopyF (cleanF cs) n).2 + 1) "FONT"
            [("face", markerFont)] [] (freshCopyF (cleanF cs) n).1 .nil) == 1))
        = true := by
      simp [styleGet, styleTruthy, forestLen, List.find?]
    simp only [setFontSizeSurface, hfont2, hspan2, List.append_nil]
    simp only [runMarkersF, processF, hsplit2]
    rw [processF_appF]
    rw [processF_absent _ _ pre _ habs_pre]
    simp only [processF, splitF_here, hguardw, if_true]
    rw [processF_absent _ _ post _ habs_post]
    simp [styleSet, styleRemove, appF_nil, List.filter, appF]

/-- C2 witness: resizing the run `"hi"` to 14 then to 16 yields a single
wrapper span (identity 10) carrying 16 — the second pass reuses the wrapper
instead of nesting a new one. -/
theorem C2_repeat_resize_single_wrapper_witness :
    setFontSizeSurface 14 0 "DIV" [] []
        (.elemCons 1 "FONT" [("face", markerFont)] [] (.textCons "hi" .nil) .nil) 10
      = (.elemCons 0 "DIV" [] []
          (.elemCons 10 "SPAN" [] [("font-size", .px 14)] (.textCons "hi" .nil) .nil)
          .nil, 11, [10])
    ∧ setFontSizeSurface 16 0 "DIV" [] []
        (.elemCons 10 "SPAN" [] [("font-size", .px 14)]
          (.elemCons 11 "FONT" [("face", markerFont)] [] (.textCons "hi" .nil) .nil)
          .nil) 12
      = (.elemCons 0 "DIV" [] []
          (.elemCons 10 "SPAN" [] [("font-size", .px 16)] (.textCons "hi" .nil) .nil)
          .nil, 12, [10]) :=
  C2_repeat_resize_single_wrapper 14 16 0 [] [] .nil .nil (.textCons "hi" .nil) 1 10
    (by decide) (by decide) (by decide) (by decide) (by decide) (by decide)

theorem sublist_pair (a b : Nat) (A B C : List Nat) :
    List.Sublist [a, b] (A ++ a :: (B ++ b :: C)) := by
  induction A with
  | nil =>
      refine List.Sublist.cons₂ a ?_
      induction B with
      | nil => exact List.Sublist.cons₂ b (List.nil_sublist C)
      | cons x xs ih => exact List.Sublist.cons x ih
  | cons x xs ih => exact List.Sublist.cons x ih

/-- C7, amended: `toReplace` is built as all font-face matches (in DOM order)
followed by all style-form span matches (in DOM order), and the selection is
rebuilt from immediately before the first *collected* wrapper to immediately
after the last; when the marker surfaces in a single form — here two disjoint
font-form marker runs, the shape the legacy-tag mode is switched on to
guarantee — the collection is in DOM order, so the rebuilt selection does run
from before the first wrapper in DOM order to after the last. -/
theorem C7_wrappers_dom_order_single_form (sz : ℚ) (cid : Nat)
    (cattrs : List (String × String)) (cstyle : List (String × StyleVal))
    (pre mid post cs1 cs2 : DForest) (m1 m2 n : Nat)
    (hpre : ∀ e ∈ elemsF pre, carriesMarkerE e = false)
    (hmid : ∀ e ∈ elemsF mid, carriesMarkerE e = false)
    (hpost : ∀ e ∈ elemsF post, carriesMarkerE e = false)
    (hcs1 : ∀ e ∈ elemsF cs1, carriesMarkerE e = false)
    (hcs2 : ∀ e ∈ elemsF cs2, carriesMarkerE e = false)
    (hm1pre : m1 ∉ elemIdsF pre)
    (hm2pre : m2 ∉ elemIdsF pre)
    (hm2mid : m2 ∉ elemIdsF mid)
    (hm2n : m2 < n) :
    setFontSizeSurface sz cid "DIV" cattrs cstyle
        (appF pre (.elemCons m1 "FONT" [("face", markerFont)] [] cs1
          (appF mid (.elemCons m2 "FONT" [("face", markerFont)] [] cs2 post)))) n
      = (.elemCons cid "DIV" cattrs cstyle
          (appF (appF pre (.elemCons (freshCopyF (cleanF cs1) n).2 "SPAN" []
              [("font-size", .px sz)] (freshCopyF (cleanF cs1) n).1 mid))
            (.elemCons (freshCopyF (cleanF cs2) ((freshCopyF (cleanF cs1) n).2 + 1)).2
              "SPAN" [] [("font-size", .px sz)]
              (freshCopyF (cleanF cs2) ((freshCopyF (cleanF cs1) n).2 + 1)).1 post))
          .nil,
         (freshCopyF (cleanF cs2) ((freshCopyF (cleanF cs1) n).2 + 1)).2 + 1,
         [(freshCopyF (cleanF cs1) n).2,
          (freshCopyF (cleanF cs2) ((freshCopyF (cleanF cs1) n).2 + 1)).2])
    ∧ List.Sublist
        [(freshCopyF (cleanF cs1) n).2,
         (freshCopyF (cleanF cs2) ((freshCopyF (cleanF cs1) n).2 + 1)).2]
        (elemIdsF (setFontSizeSurface sz cid "DIV" cattrs cstyle
          (appF pre (.elemCons m1 "FONT" [("face", markerFont)] [] cs1
            (appF mid (.elemCons m2 "FONT" [("face", markerFont)] [] cs2 post)))) n).1)
    ∧ rebuildSelection
        [(freshCopyF (cleanF cs1) n).2,
         (freshCopyF (cleanF cs2) ((freshCopyF (cleanF cs1) n).2 + 1)).2]
      = some ((freshCopyF (cleanF cs1) n).2,
         (freshCopyF (cleanF cs2) ((freshCopyF (cleanF cs1) n).2 + 1)).2) := by
  have hw1 : n ≤ (freshCopyF (cleanF cs1) n).2 := freshCopyF_mono _ n
  have hfont : collectF isFontMarkerE
      (appF pre (.elemCons m1 "FONT" [("face", markerFont)] [] cs1
        (appF mid (.elemCons m2 "FONT" [("face", markerFont)] [] cs2 post))))
      = [m1, m2] := by
    rw [collectF_appF, collect_pred_nil _ carrier_of_fontMarker pre hpre]
    simp only [collectF]
    rw [collect_pred_nil _ carrier_of_fontMarker cs1 hcs1, collectF_appF,
      collect_pred_nil _ carrier_of_fontMarker mid hmid]
    simp only [collectF]
    rw [collect_pred_nil _ carrier_of_fontMarker cs2 hcs2,
      collect_pred_nil _ carrier_of_fontMarker post hpost]
    simp [isFontMarkerE, attrGet]
  have hspan : collectF isSpanMarkerE
      (appF pre (.elemCons m1 "FONT" [("face", markerFont)] [] cs1
        (appF mid (.elemCons m2 "FONT" [("face", markerFont)] [] cs2 post))))
      = [] := by
    rw [collectF_appF, collect_pred_nil _ carrier_of_spanMarker pre hpre]
    simp only [collectF]
    rw [collect_pred_nil _ carrier_of_spanMarker cs1 hcs1, collectF_appF,
      collect_pred_nil _ carrier_of_spanMarker mid hmid]
    simp only [collectF]
    rw [collect_pred_nil _ carrier_of_spanMarker cs2 hcs2,
      collect_pred_nil _ carrier_of_spanMarker post hpost]
    simp [isSpanMarkerE]
  have hsplit1 : splitF m1
      (appF pre (.elemCons m1 "FONT" [("face", markerFont)] [] cs1
        (appF mid (.elemCons m2 "FONT" [("face", markerFont)] [] cs2 post))))
      = some (pre, ⟨m1, "FONT", [("face", markerFont)], [], cs1⟩,
          appF mid (.elemCons m2 "FONT" [("face", markerFont)] [] cs2 post)) := by
    rw [splitF_appF_left m1 pre _
      (fun j hj hji => hm1pre (hji ▸ topIdsF_sub pre j hj))]
    rw [splitF_here]
    simp [appF_nil]
  have hguard1 : (("DIV" == "SPAN") && styleTruthy (styleGet cstyle "font-size")
      && (forestLen (appF pre (.elemCons m1 "FONT" [("face", markerFont)] [] cs1
          (appF mid (.elemCons m2 "FONT" [("face", markerFont)] [] cs2 post)))) == 1))
      = false := by
    simp
  have hw1m2 : ((freshCopyF (cleanF cs1) n).2 == m2) = false := by
    simp only [beq_eq_false_iff_ne, ne_eq]
    omega
  have hsplit2 : splitF m2
      (appF pre (.elemCons (freshCopyF (cleanF cs1) n).2 "SPAN" []
        [("font-size", .px sz)] (freshCopyF (cleanF cs1) n).1
        (appF mid (.elemCons m2 "FONT" [("face", markerFont)] [] cs2 post))))
      = some (appF pre (.elemCons (freshCopyF (cleanF cs1) n).2 "SPAN" []
            [("font-size", .px sz)] (freshCopyF (cleanF cs1) n).1 mid),
          ⟨m2, "FONT", [("face", markerFont)], [], cs2⟩, post) := by
    rw [splitF_appF_left m2 pre _
      (fun j hj hji => hm2pre (hji ▸ topIdsF_sub pre j hj))]
    simp only [splitF, hw1m2, Bool.false_eq_true, if_false]
    rw [splitF_appF_left m2 mid _
      (fun j hj hji => hm2mid (hji ▸ topIdsF_sub mid j hj))]
    rw [splitF_here]
    simp [appF_nil]
  have hguard2 : (("DIV" == "SPAN") && styleTruthy (styleGet cstyle "font-size")
      && (forestLen (appF pre (.elemCons (freshCopyF (cleanF cs1) n).2 "SPAN" []
          [("font-size", .px sz)] (freshCopyF (cleanF cs1) n).1
          (appF mid (.elemCons m2 "FONT" [("face", markerFont)] [] cs2 post)))) == 1))
      = false := by
    simp
  have hmain : setFontSizeSurface sz cid "DIV" cattrs cstyle
      (appF pre (.elemCons m1 "FONT" [("face", markerFont)] [] cs1
        (appF mid (.elemCons m2 "FONT" [("face", markerFont)] [] cs2 post)))) n
      = (.elemCons cid "DIV" cattrs cstyle
          (appF (appF pre (.elemCons (freshCopyF (cleanF cs1) n).2 "SPAN" []
              [("font-size", .px sz)] (freshCopyF (cleanF cs1) n).1 mid))
            (.elemCons (freshCopyF (cleanF cs2) ((freshCopyF (cleanF cs1) n).2 + 1)).2
              "SPAN" [] [("font-size", .px sz)]
              (freshCopyF (cleanF cs2) ((freshCopyF (cleanF cs1) n).2 + 1)).1 post))
          .nil,
         (freshCopyF (cleanF cs2) ((freshCopyF (cleanF cs1) n).2 + 1)).2 + 1,
         [(freshCopyF (cleanF cs1) n).2,
          (freshCopyF (cleanF cs2) ((freshCopyF (cleanF cs1) n).2 + 1)).2]) := by
    simp only [setFontSizeSurface, hfont, hspan, List.append_nil]
    simp only [runMarkersF, processF, hsplit1, hguard1, Bool.false_eq_true, if_false]
    simp only [List.isEmpty_cons, List.cons_append, List.nil_append]
    simp only [processF, hsplit2, hguard2, Bool.false_eq_true, if_false]
    simp
  refine ⟨hmain, ?_, rfl⟩
  rw [hmain]
  rw [elemIdsF_elemCons, elemIdsF_appF, elemIdsF_appF, elemIdsF_elemCons,
    elemIdsF_elemCons]
  simp only [List.append_nil, List.cons_append, List.append_assoc]
  refine List.Sublist.cons cid ?_
  exact (sublist_pair (freshCopyF (cleanF cs1) n).2
    (freshCopyF (cleanF cs2) ((freshCopyF (cleanF cs1) n).2 + 1)).2
    (elemIdsF pre)
    (elemIdsF (freshCopyF (cleanF cs1) n).1 ++ elemIdsF mid)
    (elemIdsF (freshCopyF (cleanF cs2) ((freshCopyF (cleanF cs1) n).2 + 1)).1
      ++ elemIdsF post)).trans (by simp)


/-- C7 witness: two sibling font-form marker runs `"a"` and `"b"` produce
wrappers 10 and 11 collected in DOM order, and the rebuilt selection runs
from before wrapper 10 to after wrapper 11. -/
theorem C7_wrappers_dom_order_single_form_witness :
    setFontSizeSurface 18 0 "DIV" [] []
        (.elemCons 1 "FONT" [("face", markerFont)] [] (.textCons "a" .nil)
          (.textCons " " (.elemCons 2 "FONT" [("face", markerFont)] []
            (.textCons "b" .nil) .nil))) 10
      = (.elemCons 0 "DIV" [] []
          (.elemCons 10 "SPAN" [] [("font-size", .px 18)] (.textCons "a" .nil)
            (.textCons " " (.elemCons 11 "SPAN" [] [("font-size", .px 18)]
              (.textCons "b" .nil) .nil)))
          .nil, 12, [10, 11])
    ∧ List.Sublist [10, 11]
        (elemIdsF (setFontSizeSurface 18 0 "DIV" [] []
          (.elemCons 1 "FONT" [("face", markerFont)] [] (.textCons "a" .nil)
            (.textCons " " (.elemCons 2 "FONT" [("face", markerFont)] []
              (.textCons "b" .nil) .nil))) 10).1)
    ∧ rebuildSelection [10, 11] = some (10, 11) :=
  C7_wrappers_dom_order_single_form 18 0 [] [] .nil (.textCons " " .nil) .nil
    (.textCons "a" .nil) (.textCons "b" .nil) 1 2 10
    (by decide) (by decide) (by decide) (by decide) (by decide) (by decide)
    (by decide) (by decide) (by decide)
